import Mathlib

/-!
fastread: a fixed-row-count delimited-text reader.

Verification development for `src/fastread/src/fastread.cpp`.

The C++ source is embedded shallowly.  A `std::string` is a `List Char` (one
`Char` per byte), `int` values are `Int` (wrapped to 32 bits where the C
library converts), an R vector is a `List` of its elements, and code that can
throw returns the exception next to the state it leaves behind.

The C and Boost library routines the source calls (`atoi`, `atof`,
`std::getline`, `boost::escaped_list_separator`, `boost::token_iterator`) are
embedded from their documented behaviour (ISO C, ISO C++, the Boost headers);
the integer widths are those of an LP64 platform with IEEE-754 binary64
`double`, the character classes those of the "C" locale.

Conventions:

* a function that can throw returns the state it leaves together with the
  failure (`Option Failure`, or `Except Failure` around the value returned):
  what was written before a C++ exception stays written;
* `BOOST_ASSERT` is active or compiled out according to the parameter `NDEBUG`
  (R builds packages with `-DNDEBUG`); with `NDEBUG = true` reading a token
  iterator past its end returns the empty token it holds;
* the files that exist are given by `fs : List Char → Option (List Char)`, from
  a file name to the contents of the file, `none` when it cannot be opened;
* the row count `n` is an `int` in the source; it is a `Nat` here, the R
  vector constructors accepting no negative length;
* an element of an R character vector is the list of the characters of the
  `std::string` it is built from.
-/

namespace fastread

/-! ## Characters and C strings -/

/-- The escape character of `boost::escaped_list_separator<char>`: a backslash. -/
def escapeChar : Char := Char.ofNat 92

/-- The quote character of `boost::escaped_list_separator<char>`: a double quote. -/
def quoteChar : Char := Char.ofNat 34

/-- The separator character of `boost::escaped_list_separator<char>`: a comma. -/
def sepChar : Char := ','

/-- The NUL byte that terminates a C string. -/
def nulChar : Char := Char.ofNat 0

/-- The bytes `std::string::c_str()` exposes to a C routine: those before the first NUL. -/
def c_str (s : List Char) : List Char :=
  s.takeWhile (fun c => c != nulChar)

/-- The `isspace` class of the "C" locale: space, `\t`, `\n`, `\v`, `\f`, `\r`. -/
def isspace (c : Char) : Bool :=
  c.toNat == 32 || (9 ≤ c.toNat && c.toNat ≤ 13)

/-- The `isdigit` class: `0` to `9`. -/
def isdigit (c : Char) : Bool :=
  48 ≤ c.toNat && c.toNat ≤ 57

/-- The value of a decimal digit character. -/
def digitVal (c : Char) : Nat :=
  c.toNat - 48

/-- The `isxdigit` class: `0`-`9`, `a`-`f`, `A`-`F`. -/
def isxdigit (c : Char) : Bool :=
  isdigit c || (97 ≤ c.toNat && c.toNat ≤ 102) || (65 ≤ c.toNat && c.toNat ≤ 70)

/-- The value of a hexadecimal digit character. -/
def xdigitVal (c : Char) : Nat :=
  if isdigit c then c.toNat - 48
  else if 97 ≤ c.toNat then c.toNat - 87
  else c.toNat - 55

/-- ASCII `tolower`. -/
def lower (c : Char) : Char :=
  if 65 ≤ c.toNat && c.toNat ≤ 90 then Char.ofNat (c.toNat + 32) else c

/-- The value of a run of decimal digit characters, most significant first. -/
def decValue (ds : List Char) : Nat :=
  ds.foldl (fun acc c => acc * 10 + digitVal c) 0

/-- The value of a run of hexadecimal digit characters, most significant first. -/
def hexValue (ds : List Char) : Nat :=
  ds.foldl (fun acc c => acc * 16 + xdigitVal c) 0

/-- An optional `+` or `-` at the head of the subject sequence: whether it is
negative, and what follows the sign. -/
def takeSign (s : List Char) : Bool × List Char :=
  match s with
  | c :: t => if c = '-' then (true, t) else if c = '+' then (false, t) else (false, s)
  | [] => (false, [])

/-- The subject sequence `strtol` and `strtod` convert: what follows the leading
white space and the optional sign. -/
def subject (s : List Char) : List Char :=
  (takeSign (s.dropWhile isspace)).2

/-! ## `atoi` -/

/-- The constant `LONG_MAX` on LP64. -/
def LONG_MAX : Int := 2 ^ 63 - 1

/-- The constant `LONG_MIN` on LP64. -/
def LONG_MIN : Int := -(2 ^ 63)

/-- The constant `INT_MAX`. -/
def INT_MAX : Int := 2 ^ 31 - 1

/-- The constant `INT_MIN`. -/
def INT_MIN : Int := -(2 ^ 31)

/-- Conversion of a `long` to `int`: reduction modulo `2^32` into `[-2^31, 2^31)`. -/
def toInt32 (z : Int) : Int :=
  (z + 2 ^ 31) % 2 ^ 32 - 2 ^ 31

/-- The C function `strtol(s, NULL, 10)`: skip white space, take an optional sign, then the
longest run of decimal digits (none: the result is 0); a value outside `long`
saturates at `LONG_MIN` / `LONG_MAX`. -/
def strtol (s : List Char) : Int :=
  let body := takeSign (s.dropWhile isspace)
  let v : Int := (decValue (body.2.takeWhile isdigit) : Nat)
  if body.1 then max (-v) LONG_MIN else min v LONG_MAX

/-- The C function `atoi(s)` is `(int) strtol(s, NULL, 10)`. -/
def atoi (s : List Char) : Int :=
  toInt32 (strtol s)

/-! ## `double` and `atof` -/

/-- An IEEE-754 binary64 value.  `finite s e f` has sign bit `s`, biased exponent
field `e < 2047` and fraction field `f < 2^52`; `+0.0` is `finite false 0 0`.
All NaNs are identified. -/
inductive Double where
  | finite (sign : Bool) (exponent : Nat) (fraction : Nat)
  | inf (sign : Bool)
  | nan
  deriving DecidableEq, Repr

/-- The value `+0.0`. -/
def Double.zero : Double := Double.finite false 0 0

/-- The number of binary digits of `n`, for `n ≤ fuel`. -/
def bitLength : Nat → Nat → Nat
  | 0, _ => 0
  | fuel + 1, n => if n = 0 then 0 else bitLength fuel (n / 2) + 1

/-- The integer nearest to `a / b`, ties to the even one. -/
def roundHalfEven (a b : Nat) : Nat :=
  if 2 * (a % b) < b then a / b
  else if b < 2 * (a % b) then a / b + 1
  else if (a / b) % 2 = 0 then a / b
  else a / b + 1

/-- The integer `e` with `2^e ≤ num / den < 2^(e+1)`, for `num, den > 0`. -/
def floorLog2 (num den : Nat) : Int :=
  let ln := bitLength num num
  let ld := bitLength den den
  if den * 2 ^ ln ≤ num * 2 ^ ld then (ln : Int) - ld else (ln : Int) - ld - 1

/-- The binary64 value nearest to `± num / den` (round to nearest, ties to even),
overflowing to an infinity. -/
def roundToDouble (sign : Bool) (num den : Nat) : Double :=
  if num = 0 then Double.finite sign 0 0
  else
    let e : Int := max (floorLog2 num den) (-1022)
    let m : Nat :=
      if 52 ≤ e then roundHalfEven num (den * 2 ^ (e - 52).toNat)
      else roundHalfEven (num * 2 ^ (52 - e).toNat) den
    let bits : Nat := (e + 1022).toNat * 2 ^ 52 + m
    if 2047 * 2 ^ 52 ≤ bits then Double.inf sign
    else Double.finite sign (bits / 2 ^ 52) (bits % 2 ^ 52)

/-- The binary64 value nearest to `± m * base ^ e`. -/
def scaleToDouble (sign : Bool) (m base : Nat) (e : Int) : Double :=
  if 0 ≤ e then roundToDouble sign (m * base ^ e.toNat) 1
  else roundToDouble sign m (base ^ (-e).toNat)

/-- Whether `s` starts with the lower-case word `p`, ignoring case. -/
def hasPrefixCI (p s : List Char) : Bool :=
  (s.take p.length).map lower == p

/-- The optional exponent part of a floating literal: the marker (`e` or `p`,
either case), an optional sign and a non-empty run of decimal digits; 0 when
there is no complete exponent part. -/
def exponentPart (marker : Char) (r : List Char) : Int :=
  match r with
  | c :: t =>
    if lower c = marker then
      let body := takeSign t
      let ds := body.2.takeWhile isdigit
      if ds = [] then 0
      else if body.1 then -((decValue ds : Nat) : Int) else ((decValue ds : Nat) : Int)
    else 0
  | [] => 0

/-- The fraction digits after a run of integer digits: the digits (of class `p`)
that follow a `.`, and the rest of the input after them. -/
def fractionPart (p : Char → Bool) (r : List Char) : List Char × List Char :=
  match r with
  | c :: u => if c = '.' then (u.takeWhile p, u.dropWhile p) else ([], r)
  | [] => ([], [])

/-- A hexadecimal floating literal `0x h.h p±d` at the head of `t`: its digits
(integer and fraction part), and the rest of the input after the digits. -/
def hexLiteral (t : List Char) : Option (List Char × List Char × List Char) :=
  match t with
  | z :: x :: u =>
    if z = '0' ∧ lower x = 'x' then
      let ip := u.takeWhile isxdigit
      let fr := fractionPart isxdigit (u.dropWhile isxdigit)
      if ip = [] ∧ fr.1 = [] then none else some (ip, fr.1, fr.2)
    else none
  | _ => none

/-- The C function `strtod(s, NULL)`: skip white space, take an optional sign, then `inf` /
`infinity` or `nan` (any case), a hexadecimal floating literal, or a decimal
floating literal; when none is there no conversion is performed and the result
is `+0.0`.  The value is rounded to the nearest `double`. -/
def strtod (s : List Char) : Double :=
  let body := takeSign (s.dropWhile isspace)
  let t := body.2
  if hasPrefixCI ['i', 'n', 'f'] t then Double.inf body.1
  else if hasPrefixCI ['n', 'a', 'n'] t then Double.nan
  else
    match hexLiteral t with
    | some (ip, fp, r) =>
      scaleToDouble body.1 (hexValue (ip ++ fp)) 2 (exponentPart 'p' r - 4 * (fp.length : Int))
    | none =>
      let ip := t.takeWhile isdigit
      let fr := fractionPart isdigit (t.dropWhile isdigit)
      if ip = [] ∧ fr.1 = [] then Double.zero
      else scaleToDouble body.1 (decValue (ip ++ fr.1)) 10 (exponentPart 'e' fr.2 - (fr.1.length : Int))

/-- The C function `atof(s)` is `strtod(s, NULL)`. -/
def atof (s : List Char) : Double :=
  strtod s

/-! ## Failures -/

deriving instance DecidableEq for Except

/-- The ways a call can end other than by returning: a C++ exception that
leaves the function, or a failed assertion. -/
inductive Failure where
  | escaped_list_error (what : String)
  | assertion_failed (expr : String)
  | stop (message : String)
  deriving DecidableEq, Repr

/-! ## `boost::escaped_list_separator<char>` and `boost::token_iterator` -/

/-- The character an escape sequence stands for in `do_escape`: `n` is a line
feed; a quote, a separator and an escape stand for themselves; anything else
is an unknown escape sequence. -/
def do_escape (d : Char) : Option Char :=
  if d = 'n' then some '\n'
  else if d = quoteChar then some d
  else if d = sepChar then some d
  else if d = escapeChar then some d
  else none

/-- The `for (; next != end; ++next)` loop of `escaped_list_separator::operator()`,
started with `last_ = false`: from the quoting state, the unread input `next`
and the token so far, the unread input, token and `last_` it leaves, and the
exception it throws if any. -/
def scanField : Bool → List Char → List Char → (List Char × List Char × Bool) × Option Failure
  | _, [], tok => (([], tok, false), none)
  | bInQuote, c :: rest, tok =>
    if c = escapeChar then
      match rest with
      | [] => (([], tok, false), some (Failure.escaped_list_error "cannot end with escape"))
      | d :: rest1 =>
        match do_escape d with
        | some x => scanField bInQuote rest1 (tok ++ [x])
        | none => ((d :: rest1, tok, false), some (Failure.escaped_list_error "unknown escape sequence"))
    else if c = sepChar then
      if bInQuote then scanField bInQuote rest (tok ++ [c])
      else ((rest, tok, true), none)
    else if c = quoteChar then scanField (!bInQuote) rest tok
    else scanField bInQuote rest (tok ++ [c])

/-- A `boost::token_iterator` over an `escaped_list_separator<char>`: the
separator's `last_` flag, the unread input `[begin_, end_)`, `valid_` and the
current token `tok_`. -/
structure token_iterator where
  last_ : Bool
  begin_ : List Char
  valid_ : Bool
  tok_ : List Char
  deriving DecidableEq, Repr

/-- The default-constructed `token_iterator`. -/
def token_iterator.default : token_iterator :=
  { last_ := false, begin_ := [], valid_ := false, tok_ := [] }

/-- The call `f_(begin_, end_, tok_)` of `escaped_list_separator::operator()` on the
iterator's fields: the fields after the call and the `bool` it returns, or
the exception it throws. -/
def token_iterator.call (it : token_iterator) : token_iterator × Except Failure Bool :=
  match it.begin_ with
  | [] =>
    if it.last_ then ({ it with tok_ := [], last_ := false }, Except.ok true)
    else ({ it with tok_ := [] }, Except.ok false)
  | c :: rest =>
    let r := scanField false (c :: rest) []
    let it1 := { it with begin_ := r.1.1, tok_ := r.1.2.1, last_ := r.1.2.2 }
    match r.2 with
    | some e => (it1, Except.error e)
    | none => (it1, Except.ok true)

/-- The iterator `tokenizer_.begin()` over `line`: the constructor followed by
`initialize()`, which resets the separator and reads the first token when the
input is not empty. -/
def token_iterator.begin (line : List Char) : Except Failure token_iterator :=
  let it : token_iterator := { last_ := false, begin_ := line, valid_ := false, tok_ := [] }
  match line with
  | [] => Except.ok it
  | _ :: _ =>
    match it.call with
    | (_, Except.error e) => Except.error e
    | (it1, Except.ok b) => Except.ok { it1 with valid_ := b }

/-- The member `token_iterator::increment()`: `BOOST_ASSERT(valid_); valid_ = f_(begin_, end_, tok_);`.
The assertion is compiled out when `NDEBUG` is defined. -/
def token_iterator.increment (NDEBUG : Bool) (it : token_iterator) :
    token_iterator × Option Failure :=
  if !NDEBUG && !it.valid_ then (it, some (Failure.assertion_failed "valid_"))
  else
    match it.call with
    | (it1, Except.error e) => (it1, some e)
    | (it1, Except.ok b) => ({ it1 with valid_ := b }, none)

/-- The member `token_iterator::dereference()`: `BOOST_ASSERT(valid_); return tok_;`. -/
def token_iterator.dereference (NDEBUG : Bool) (it : token_iterator) : Except Failure (List Char) :=
  if !NDEBUG && !it.valid_ then Except.error (Failure.assertion_failed "valid_")
  else Except.ok it.tok_

/-! ## `Tokenizer` -/

/-- The class `Tokenizer`: the range given to the Boost tokenizer, the last token
returned and the iterator. -/
structure Tokenizer where
  tokenizer_ : List Char
  token : List Char
  it : token_iterator
  deriving DecidableEq, Repr

/-- The constructor `Tokenizer::Tokenizer()`. -/
def Tokenizer.new : Tokenizer :=
  { tokenizer_ := [], token := [], it := token_iterator.default }

/-- The member `Tokenizer::assign(line)`: `tokenizer_.assign(line); it = tokenizer_.begin();`. -/
def Tokenizer.assign (t : Tokenizer) (line : List Char) : Tokenizer × Option Failure :=
  let t1 := { t with tokenizer_ := line }
  match token_iterator.begin line with
  | Except.error e => (t1, some e)
  | Except.ok it => ({ t1 with it := it }, none)

/-- The member `Tokenizer::get_token()`: `token = *it++; return token;`.  The postfix
increment copies the iterator, advances `it` (which reads the following
token), and the copy is dereferenced. -/
def Tokenizer.get_token (NDEBUG : Bool) (t : Tokenizer) : Tokenizer × Except Failure (List Char) :=
  let tmp := t.it
  match t.it.increment NDEBUG with
  | (it1, some e) => ({ t with it := it1 }, Except.error e)
  | (it1, none) =>
    match tmp.dereference NDEBUG with
    | Except.error e => ({ t with it := it1 }, Except.error e)
    | Except.ok tok => ({ t with it := it1, token := tok }, Except.ok tok)

/-! ## `FromString<T>` -/

/-- The member `FromString<int>::get(s)`: `atoi(s.c_str())`. -/
def FromString_int.get (s : List Char) : Int :=
  atoi (c_str s)

/-- The member `FromString<double>::get(s)`: `atof(s.c_str())`. -/
def FromString_double.get (s : List Char) : Double :=
  atof (c_str s)

/-- The member `FromString<String>::get(s)`: `String(s)`. -/
def FromString_String.get (s : List Char) : List Char :=
  s

/-! ## R values -/

/-- An R object, as far as this program builds or inspects one. -/
inductive SEXP where
  | NILSXP
  | LGLSXP (xs : List Bool)
  | INTSXP (xs : List Int)
  | REALSXP (xs : List Double)
  | STRSXP (xs : List (List Char))
  | RAWSXP (xs : List Nat)
  deriving DecidableEq, Repr

/-- The `SEXPTYPE` code of an R object (`Rinternals.h`). -/
def TYPEOF (x : SEXP) : Nat :=
  match x with
  | SEXP.NILSXP => 0
  | SEXP.LGLSXP _ => 10
  | SEXP.INTSXP _ => 13
  | SEXP.REALSXP _ => 14
  | SEXP.STRSXP _ => 16
  | SEXP.RAWSXP _ => 24

/-- The code `INTSXP`. -/
def INTSXP : Nat := 13

/-- The code `REALSXP`. -/
def REALSXP : Nat := 14

/-- The code `STRSXP`. -/
def STRSXP : Nat := 16

/-! ## `VectorInput` -/

/-- The three instances of `VectorInput<Storage, Converter>`, each holding its
`Storage data`: an R vector of fixed length. -/
inductive VectorInput where
  | IntegerVector (data : List Int)
  | DoubleVector (data : List Double)
  | CharacterVector (data : List (List Char))
  deriving DecidableEq, Repr

/-- The constructor `VectorInput_Integer(n)`: `IntegerVector data(n)` is filled with 0. -/
def VectorInput_Integer (n : Nat) : VectorInput :=
  VectorInput.IntegerVector (List.replicate n 0)

/-- The constructor `VectorInput_Double(n)`: `DoubleVector data(n)` is filled with 0.0. -/
def VectorInput_Double (n : Nat) : VectorInput :=
  VectorInput.DoubleVector (List.replicate n Double.zero)

/-- The constructor `VectorInput_String(n)`: `CharacterVector data(n)` is filled with empty strings. -/
def VectorInput_String (n : Nat) : VectorInput :=
  VectorInput.CharacterVector (List.replicate n [])

/-- The member `VectorInput::set(i, chunk)`: `data[i] = converter.get(chunk)`.  The source
does not check `i`; every caller in this file passes `i` below the length. -/
def VectorInput.set (v : VectorInput) (i : Nat) (chunk : List Char) : VectorInput :=
  match v with
  | VectorInput.IntegerVector data => VectorInput.IntegerVector (data.set i (FromString_int.get chunk))
  | VectorInput.DoubleVector data => VectorInput.DoubleVector (data.set i (FromString_double.get chunk))
  | VectorInput.CharacterVector data =>
    VectorInput.CharacterVector (data.set i (FromString_String.get chunk))

/-- The member `VectorInput::get()`: `return data;`, with the column it leaves. -/
def VectorInput.get (v : VectorInput) : SEXP × VectorInput :=
  match v with
  | VectorInput.IntegerVector data => (SEXP.INTSXP data, v)
  | VectorInput.DoubleVector data => (SEXP.REALSXP data, v)
  | VectorInput.CharacterVector data => (SEXP.STRSXP data, v)

/-- The number of elements of the column. -/
def VectorInput.size (v : VectorInput) : Nat :=
  match v with
  | VectorInput.IntegerVector data => data.length
  | VectorInput.DoubleVector data => data.length
  | VectorInput.CharacterVector data => data.length

/-! ## `std::ifstream` and `std::getline` -/

/-- The state of a `std::ifstream`: the characters not yet read, `eofbit` and
`failbit`. -/
structure ifstream where
  buf : List Char
  eofbit : Bool
  failbit : Bool
  deriving DecidableEq, Repr

/-- The constructor `std::ifstream file(name)`: the stream over the file's contents, or one with
`failbit` set when the file cannot be opened (`fs name = none`). -/
def ifstream.open (fs : List Char → Option (List Char)) (name : List Char) : ifstream :=
  match fs name with
  | some contents => { buf := contents, eofbit := false, failbit := false }
  | none => { buf := [], eofbit := false, failbit := true }

/-- The function `std::getline(file, line)`.  When the stream is not good the sentry fails:
`failbit` is set and `line` is left as it was.  Otherwise `line` is erased and
characters are moved to it up to a line feed (extracted, not stored) or the
end of the file (`eofbit`); when nothing was extracted `failbit` is set. -/
def getline (file : ifstream) (line : List Char) : ifstream × List Char :=
  if file.eofbit || file.failbit then ({ file with failbit := true }, line)
  else
    let str := file.buf.takeWhile (fun c => c != '\n')
    match file.buf.dropWhile (fun c => c != '\n') with
    | [] => ({ buf := [], eofbit := true, failbit := str.isEmpty }, str)
    | _ :: rest => ({ buf := rest, eofbit := false, failbit := false }, str)

/-! ## `DataReader` -/

/-- The class `DataReader`. -/
structure DataReader where
  n : Nat
  data : List VectorInput
  ncol : Nat
  tokenizer : Tokenizer
  deriving DecidableEq, Repr

/-- The constructor `DataReader::DataReader(n_)`: an Integer column and a Double column of length `n_`. -/
def DataReader.new (n_ : Nat) : DataReader :=
  { n := n_, data := [VectorInput_Integer n_, VectorInput_Double n_], ncol := 2,
    tokenizer := Tokenizer.new }

/-- The statement `data[j]->set(i, chunk)`.  The source does not check `j`; every
reader built by the constructor has a column for each `j < ncol`. -/
def DataReader.setCell (r : DataReader) (j i : Nat) (chunk : List Char) : DataReader :=
  match r.data[j]? with
  | some v => { r with data := r.data.set j (v.set i chunk) }
  | none => r

/-- The loop `for (int j = ...; j < ncol; j++) data[j]->set(i, tokenizer.get_token());`
of `DataReader::set` with `k` iterations left, from column `j`. -/
def DataReader.setLoop (NDEBUG : Bool) (i : Nat) :
    Nat → Nat → DataReader → DataReader × Option Failure
  | 0, _, r => (r, none)
  | k + 1, j, r =>
    match r.tokenizer.get_token NDEBUG with
    | (t, Except.error e) => ({ r with tokenizer := t }, some e)
    | (t, Except.ok chunk) =>
      DataReader.setLoop NDEBUG i k (j + 1) (DataReader.setCell { r with tokenizer := t } j i chunk)

/-- The member `DataReader::set(i, line)`. -/
def DataReader.set (NDEBUG : Bool) (r : DataReader) (i : Nat) (line : List Char) :
    DataReader × Option Failure :=
  match r.tokenizer.assign line with
  | (t, some e) => ({ r with tokenizer := t }, some e)
  | (t, none) => DataReader.setLoop NDEBUG i r.ncol 0 { r with tokenizer := t }

/-- The loop `for (int i = ...; i < n; i++) { std::getline(file, line); set(i, line); }`
of `DataReader::read_file` with `k` iterations left, from row `i`. -/
def DataReader.readLoop (NDEBUG : Bool) :
    Nat → Nat → ifstream → List Char → DataReader → DataReader × Option Failure
  | 0, _, _, _, r => (r, none)
  | k + 1, i, file, line, r =>
    let g := getline file line
    match r.set NDEBUG i g.2 with
    | (r1, some e) => (r1, some e)
    | (r1, none) => DataReader.readLoop NDEBUG k (i + 1) g.1 g.2 r1

/-- The member `DataReader::read_file(filename)`: the reader it leaves, and the failure
that ended it if any. -/
def DataReader.read_file (NDEBUG : Bool) (fs : List Char → Option (List Char))
    (r : DataReader) (filename : List Char) : DataReader × Option Failure :=
  DataReader.readLoop NDEBUG r.n 0 (ifstream.open fs (c_str filename)) [] r

/-- The loop `for (int i = ...; i < ncol; i++) out[i] = data[i]->get();` of
`DataReader::get` with `k` iterations left, from column `i`. -/
def DataReader.getLoop : Nat → Nat → DataReader → List SEXP → List SEXP × DataReader
  | 0, _, r, out => (out, r)
  | k + 1, i, r, out =>
    match r.data[i]? with
    | some v =>
      DataReader.getLoop k (i + 1) { r with data := r.data.set i v.get.2 } (out.set i v.get.1)
    | none => DataReader.getLoop k (i + 1) r out

/-- The member `DataReader::get()`: the `List` of the exported columns, with the reader it leaves. -/
def DataReader.get (r : DataReader) : List SEXP × DataReader :=
  DataReader.getLoop r.ncol 0 r (List.replicate r.ncol SEXP.NILSXP)

/-- The function `read_csv(file, n)`: the table, or the failure that ended the call. -/
def read_csv (NDEBUG : Bool) (fs : List Char → Option (List Char)) (file : List Char) (n : Nat) :
    Except Failure (List SEXP) :=
  match (DataReader.new n).read_file NDEBUG fs file with
  | (_, some e) => Except.error e
  | (reader, none) => Except.ok reader.get.1

/-! ## `scan_` -/

/-- Modelled from the spec: `fastread::FileReader` is declared in `fastread.h`,
which is not among the sources.  By section 4.5 it presents the file as one
continuous stream of tokens: `is_finished()` tells whether the stream is
exhausted and `get_token()` pulls the next token.  The state is the list of
tokens not yet pulled. -/
structure FileReader where
  tokens : List (List Char)
  deriving DecidableEq, Repr

/-- Modelled from the spec: `FileReader::is_finished()`, true when the stream is exhausted. -/
def FileReader.is_finished (r : FileReader) : Bool :=
  r.tokens.isEmpty

/-- Modelled from the spec: `FileReader::get_token()`, the next token of the stream. -/
def FileReader.get_token (r : FileReader) : List Char × FileReader :=
  (r.tokens.headD [], { tokens := r.tokens.tail })

/-- The effects of `scan_`, in program order. -/
inductive Event where
  | alloc (sexptype : Nat) (n : Nat)
  | openFile (filename : List Char)
  | token (t : List Char)
  deriving DecidableEq, Repr

/-- The `switch (TYPEOF(what))` of `scan_`: the column allocated with `new`, or
none in the `default` case. -/
def scanInput (n : Nat) (what : SEXP) : Option VectorInput :=
  if TYPEOF what = INTSXP then some (VectorInput_Integer n)
  else if TYPEOF what = REALSXP then some (VectorInput_Double n)
  else if TYPEOF what = STRSXP then some (VectorInput_String n)
  else none

/-- The loop `for (int i = ...; i < n; i++) { if (reader.is_finished()) break;
input->set(i, reader.get_token()); }` of `scan_` with `k` iterations left, from
row `i`: the column, the reader and the tokens pulled. -/
def scanLoop : Nat → Nat → FileReader → VectorInput → VectorInput × FileReader × List Event
  | 0, _, reader, input => (input, reader, [])
  | k + 1, i, reader, input =>
    if reader.is_finished then (input, reader, [])
    else
      let g := reader.get_token
      let r := scanLoop k (i + 1) g.2 (input.set i g.1)
      (r.1, r.2.1, Event.token g.1 :: r.2.2)

/-- The function `scan_(filename, n, what)`.  `tokensOf filename` is the token stream that
`FileReader reader(filename)` presents.  The result is the exported column or
the failure, with the effects performed up to there. -/
def scan_ (tokensOf : List Char → List (List Char)) (filename : List Char) (n : Nat) (what : SEXP) :
    List Event × Except Failure SEXP :=
  match scanInput n what with
  | none => ([], Except.error (Failure.stop "unsupported type"))
  | some input =>
    let reader : FileReader := { tokens := tokensOf filename }
    let r := scanLoop n 0 reader input
    (Event.alloc (TYPEOF what) n :: Event.openFile filename :: r.2.2, Except.ok r.1.get.1)

/-! ## Predicates used in the statements -/

/-- The reader has its two columns, an Integer one and a Double one, each of length `n`. -/
def DataReader.Shape (n : Nat) (r : DataReader) : Prop :=
  r.ncol = 2 ∧ ∃ xs ys, r.data = [VectorInput.IntegerVector xs, VectorInput.DoubleVector ys] ∧
    xs.length = n ∧ ys.length = n

/-- A file system in which only the file named `f` exists, with the given contents. -/
def oneFile (contents : List Char) (name : List Char) : Option (List Char) :=
  if name = ['f'] then some contents else none

/-! ## Well-formed input files -/

/-- The number a run of decimal digit characters denotes, most significant first. -/
def digitsValue (ds : List Char) : Nat :=
  Nat.ofDigits 10 (ds.reverse.map digitVal)

/-- The number a run of hexadecimal digit characters denotes, most significant first. -/
def hexDigitsValue (ds : List Char) : Nat :=
  Nat.ofDigits 16 (ds.reverse.map xdigitVal)

/-- The characters of an optional sign: nothing, `+` (`some false`) or `-` (`some true`). -/
def signText (sign : Option Bool) : List Char :=
  match sign with
  | none => []
  | some false => ['+']
  | some true => ['-']

/-- Whether an optional sign is `-`. -/
def signNeg (sign : Option Bool) : Bool :=
  match sign with
  | some true => true
  | _ => false

/-- White space in front of a field inside a line: characters of the `isspace`
class other than the line feed. -/
def LeadingSpace (ws : List Char) : Prop :=
  ∀ c ∈ ws, isspace c = true ∧ c ≠ '\n'

instance (ws : List Char) : Decidable (LeadingSpace ws) := by
  unfold LeadingSpace
  infer_instance

/-- An integer field `[space][+|-]digits`. -/
structure IntField where
  space : List Char
  sign : Option Bool
  digits : List Char
  deriving DecidableEq, Repr

/-- The characters of an integer field. -/
def IntField.text (f : IntField) : List Char :=
  f.space ++ signText f.sign ++ f.digits

/-- The integer an integer field denotes. -/
def IntField.value (f : IntField) : Int :=
  if signNeg f.sign then -((digitsValue f.digits : Nat) : Int)
  else ((digitsValue f.digits : Nat) : Int)

/-- An integer field is well formed when the white space in front of it holds no
line feed and it has at least one digit, only digits, and denotes a number in
the range of `int`. -/
def IntField.WellFormed (f : IntField) : Prop :=
  LeadingSpace f.space ∧ f.digits ≠ [] ∧ (∀ c ∈ f.digits, isdigit c = true) ∧
    INT_MIN ≤ f.value ∧ f.value ≤ INT_MAX

instance (f : IntField) : Decidable f.WellFormed := by
  unfold IntField.WellFormed
  infer_instance

/-- The exponent part of a floating literal: the marker, an optional sign and the
decimal digits of the exponent. -/
structure Exponent where
  marker : Char
  sign : Option Bool
  digits : List Char
  deriving DecidableEq, Repr

/-- The characters of an exponent part. -/
def Exponent.text (e : Exponent) : List Char :=
  e.marker :: (signText e.sign ++ e.digits)

/-- The exponent an exponent part denotes. -/
def Exponent.value (e : Exponent) : Int :=
  if signNeg e.sign then -((digitsValue e.digits : Nat) : Int)
  else ((digitsValue e.digits : Nat) : Int)

/-- An exponent part is well formed, for the marker `lo` or `up`, when it starts
with one of them and has at least one digit and only digits. -/
def Exponent.WellFormed (lo up : Char) (e : Exponent) : Prop :=
  (e.marker = lo ∨ e.marker = up) ∧ e.digits ≠ [] ∧ ∀ c ∈ e.digits, isdigit c = true

instance (lo up : Char) (e : Exponent) : Decidable (e.WellFormed lo up) := by
  unfold Exponent.WellFormed
  infer_instance

/-- The characters of an optional exponent part. -/
def exponentText (e : Option Exponent) : List Char :=
  match e with
  | some x => x.text
  | none => []

/-- The exponent an optional exponent part denotes, 0 when there is none. -/
def exponentValue (e : Option Exponent) : Int :=
  match e with
  | some x => x.value
  | none => 0

/-- An optional exponent part is well formed when there is none or it is. -/
def exponentWellFormed (lo up : Char) (e : Option Exponent) : Prop :=
  match e with
  | some x => x.WellFormed lo up
  | none => True

instance (lo up : Char) : (e : Option Exponent) → Decidable (exponentWellFormed lo up e)
  | some x => inferInstanceAs (Decidable (x.WellFormed lo up))
  | none => inferInstanceAs (Decidable True)

/-- The characters of an optional fraction part: the point and the digits after it. -/
def fractionText (fr : Option (List Char)) : List Char :=
  match fr with
  | some ds => '.' :: ds
  | none => []

/-- The digits of an optional fraction part, none when there is no point. -/
def fractionDigits (fr : Option (List Char)) : List Char :=
  match fr with
  | some ds => ds
  | none => []

/-- What follows the sign in a floating literal: a decimal literal
`digits[.digits][e[+|-]digits]` or `.digits[e[+|-]digits]`, a hexadecimal
literal `0x` `hexdigits[.hexdigits][p[+|-]digits]`, or one of the words
`inf`, `infinity`, `nan`, in any case. -/
inductive FloatBody where
  | decimal (intDigits : List Char) (fraction : Option (List Char)) (exponent : Option Exponent)
  | hexadecimal (x : Char) (intDigits : List Char) (fraction : Option (List Char))
      (exponent : Option Exponent)
  | infinity (word : List Char)
  | nan (word : List Char)
  deriving DecidableEq, Repr

/-- The characters of what follows the sign in a floating literal. -/
def FloatBody.text (b : FloatBody) : List Char :=
  match b with
  | FloatBody.decimal ip fr e => ip ++ (fractionText fr ++ exponentText e)
  | FloatBody.hexadecimal x ip fr e => '0' :: x :: (ip ++ (fractionText fr ++ exponentText e))
  | FloatBody.infinity w => w
  | FloatBody.nan w => w

/-- The `double` a floating literal denotes, from whether its sign is `-`: the one
nearest to `± digits × 10^(e - k)`, or to `± hexdigits × 2^(e - 4k)`, for the
digits of both parts, `k` digits after the point and the exponent `e`; an
infinity of that sign; a NaN. -/
def FloatBody.value (neg : Bool) (b : FloatBody) : Double :=
  match b with
  | FloatBody.decimal ip fr e =>
    scaleToDouble neg (digitsValue (ip ++ fractionDigits fr)) 10
      (exponentValue e - ((fractionDigits fr).length : Int))
  | FloatBody.hexadecimal _ ip fr e =>
    scaleToDouble neg (hexDigitsValue (ip ++ fractionDigits fr)) 2
      (exponentValue e - 4 * ((fractionDigits fr).length : Int))
  | FloatBody.infinity _ => Double.inf neg
  | FloatBody.nan _ => Double.nan

/-- A floating literal is well formed when it has at least one digit before or
after the point, only digits (hexadecimal ones after `0x` or `0X`) in both
parts, and a well-formed exponent part if any, with marker `e` or `E` (`p` or
`P` in a hexadecimal literal); or when it is one of the three words, in any
case. -/
def FloatBody.WellFormed (b : FloatBody) : Prop :=
  match b with
  | FloatBody.decimal ip fr e =>
    (ip ≠ [] ∨ fractionDigits fr ≠ []) ∧ (∀ c ∈ ip, isdigit c = true) ∧
      (∀ c ∈ fractionDigits fr, isdigit c = true) ∧ exponentWellFormed 'e' 'E' e
  | FloatBody.hexadecimal x ip fr e =>
    (x = 'x' ∨ x = 'X') ∧ (ip ≠ [] ∨ fractionDigits fr ≠ []) ∧
      (∀ c ∈ ip, isxdigit c = true) ∧ (∀ c ∈ fractionDigits fr, isxdigit c = true) ∧
      exponentWellFormed 'p' 'P' e
  | FloatBody.infinity w =>
    w.map Char.toLower = ['i', 'n', 'f'] ∨
      w.map Char.toLower = ['i', 'n', 'f', 'i', 'n', 'i', 't', 'y']
  | FloatBody.nan w => w.map Char.toLower = ['n', 'a', 'n']

instance : (b : FloatBody) → Decidable b.WellFormed
  | FloatBody.decimal ip fr e =>
    inferInstanceAs (Decidable ((ip ≠ [] ∨ fractionDigits fr ≠ []) ∧
      (∀ c ∈ ip, isdigit c = true) ∧ (∀ c ∈ fractionDigits fr, isdigit c = true) ∧
      exponentWellFormed 'e' 'E' e))
  | FloatBody.hexadecimal x ip fr e =>
    inferInstanceAs (Decidable ((x = 'x' ∨ x = 'X') ∧ (ip ≠ [] ∨ fractionDigits fr ≠ []) ∧
      (∀ c ∈ ip, isxdigit c = true) ∧ (∀ c ∈ fractionDigits fr, isxdigit c = true) ∧
      exponentWellFormed 'p' 'P' e))
  | FloatBody.infinity w =>
    inferInstanceAs (Decidable (w.map Char.toLower = ['i', 'n', 'f'] ∨
      w.map Char.toLower = ['i', 'n', 'f', 'i', 'n', 'i', 't', 'y']))
  | FloatBody.nan w => inferInstanceAs (Decidable (w.map Char.toLower = ['n', 'a', 'n']))

/-- A float field `[space][+|-]literal`. -/
structure FloatField where
  space : List Char
  sign : Option Bool
  body : FloatBody
  deriving DecidableEq, Repr

/-- The characters of a float field. -/
def FloatField.text (f : FloatField) : List Char :=
  f.space ++ signText f.sign ++ f.body.text

/-- The `double` a float field denotes. -/
def FloatField.value (f : FloatField) : Double :=
  f.body.value (signNeg f.sign)

/-- A float field is well formed when the white space in front of it holds no
line feed and its literal is well formed. -/
def FloatField.WellFormed (f : FloatField) : Prop :=
  LeadingSpace f.space ∧ f.body.WellFormed

instance (f : FloatField) : Decidable f.WellFormed := by
  unfold FloatField.WellFormed
  infer_instance

/-- The line `<integer>,<float>` of a row. -/
def csvLine (row : IntField × FloatField) : List Char :=
  row.1.text ++ ',' :: row.2.text

/-- The file consisting of exactly the lines of `rows`, separated by line feeds;
`finalNewline` tells whether the last line ends with a line feed too. -/
def csvFile (rows : List (IntField × FloatField)) (finalNewline : Bool) : List Char :=
  match rows with
  | [] => []
  | row :: rest =>
    match rest with
    | [] => csvLine row ++ (if finalNewline then ['\n'] else [])
    | _ :: _ => csvLine row ++ '\n' :: csvFile rest finalNewline

/-- A character that `escaped_list_separator` copies into the token as it is:
not the escape, not the separator, not the quote. -/
def plainChar (c : Char) : Prop :=
  c ≠ escapeChar ∧ c ≠ sepChar ∧ c ≠ quoteChar

instance (c : Char) : Decidable (plainChar c) := by
  unfold plainChar
  infer_instance

/-! ## Fields of a line -/

/-- The line made of the given fields separated by commas. -/
def joinFields : List (List Char) → List Char
  | [] => []
  | f :: rest =>
    match rest with
    | [] => f
    | _ :: _ => f ++ ',' :: joinFields rest

/-- The member `Tokenizer::get_token()` called `k` times in a row: the tokens
returned, in order, or the failure that ended the first call to fail. -/
def Tokenizer.get_tokens (NDEBUG : Bool) :
    Nat → Tokenizer → Tokenizer × Except Failure (List (List Char))
  | 0, t => (t, Except.ok [])
  | k + 1, t =>
    match t.get_token NDEBUG with
    | (t1, Except.error e) => (t1, Except.error e)
    | (t1, Except.ok tok) =>
      match Tokenizer.get_tokens NDEBUG k t1 with
      | (t2, Except.error e) => (t2, Except.error e)
      | (t2, Except.ok toks) => (t2, Except.ok (tok :: toks))

/-- The field that the escaped-list rule reads next, from the separator's `last_`
flag and the unread input: the field with the flag and the input after it,
`none` when the line is exhausted, or the exception for a malformed escape
sequence. -/
def nextField (last : Bool) (next : List Char) :
    Except Failure (Option (List Char × Bool × List Char)) :=
  match next with
  | [] => if last then Except.ok (some ([], false, [])) else Except.ok none
  | c :: rest =>
    match scanField false (c :: rest) [] with
    | (_, some e) => Except.error e
    | (r, none) => Except.ok (some (r.2.1, r.2.2, r.1))

/-- The first `k` fields of a line under the escaped-list rule (all of them when
the line has fewer), or the exception raised while reading them. -/
def firstFields : Nat → Bool → List Char → Except Failure (List (List Char))
  | 0, _, _ => Except.ok []
  | k + 1, last, next =>
    match nextField last next with
    | Except.error e => Except.error e
    | Except.ok none => Except.ok []
    | Except.ok (some (tok, last1, next1)) =>
      match firstFields k last1 next1 with
      | Except.error e => Except.error e
      | Except.ok toks => Except.ok (tok :: toks)

/-- The first two fields of a line, when the line has them and the field after
them, if there is one, is read without error too (the iterator reads one
field ahead of the one it returns). -/
def lineFields (line : List Char) : Option (List Char × List Char) :=
  match firstFields 3 false line with
  | Except.ok (f0 :: f1 :: _) => some (f0, f1)
  | _ => none

/-- The Integer conversion of the first field of a line. -/
def lineInt (line : List Char) : Int :=
  FromString_int.get ((lineFields line).getD ([], [])).1

/-- The Double conversion of the second field of a line. -/
def lineDouble (line : List Char) : Double :=
  FromString_double.get ((lineFields line).getD ([], [])).2

/-- A token in which, after leading white space and one optional sign, no
decimal digit follows: Integer conversion finds no number in it. -/
def NonNumeric (t : List Char) : Prop :=
  ∀ c ∈ (subject (c_str t)).head?, isdigit c = false

instance (t : List Char) : Decidable (NonNumeric t) := by
  unfold NonNumeric
  infer_instance

/-! ## Files as lists of lines -/

/-- The contents of a file that starts with the given lines, separated by line
feeds: after the last of them the file ends (`tail = none`) or goes on with a
line feed and `rest` (`tail = some rest`). -/
def fileOf (lines : List (List Char)) (tail : Option (List Char)) : List Char :=
  match lines with
  | [] =>
    match tail with
    | some rest => rest
    | none => []
  | l :: ls =>
    match ls with
    | [] =>
      match tail with
      | some rest => l ++ '\n' :: rest
      | none => l
    | _ :: _ => l ++ '\n' :: fileOf ls tail

/-- The member `DataReader::set` applied to the given lines in order, at the rows
`i, i + 1, ...`, stopping at the first failure. -/
def DataReader.setLines (NDEBUG : Bool) : List (List Char) → Nat → DataReader →
    DataReader × Option Failure
  | [], _, r => (r, none)
  | l :: ls, i, r =>
    match r.set NDEBUG i l with
    | (r1, some e) => (r1, some e)
    | (r1, none) => DataReader.setLines NDEBUG ls (i + 1) r1

/-! ## The cells written -/

/-- The cells `(column, row)` assigned by the loop of `DataReader::set`, in order:
one for each execution of `data[j]->set(i, ...)`. -/
def DataReader.setLoopWrites (NDEBUG : Bool) (i : Nat) :
    Nat → Nat → DataReader → List (Nat × Nat)
  | 0, _, _ => []
  | k + 1, j, r =>
    match r.tokenizer.get_token NDEBUG with
    | (_, Except.error _) => []
    | (t, Except.ok chunk) =>
      (j, i) :: DataReader.setLoopWrites NDEBUG i k (j + 1)
        (DataReader.setCell { r with tokenizer := t } j i chunk)

/-- The cells assigned by `DataReader::set(i, line)`, in order. -/
def DataReader.setWrites (NDEBUG : Bool) (r : DataReader) (i : Nat) (line : List Char) :
    List (Nat × Nat) :=
  match r.tokenizer.assign line with
  | (_, some _) => []
  | (t, none) => DataReader.setLoopWrites NDEBUG i r.ncol 0 { r with tokenizer := t }

/-- The cells assigned by the loop of `DataReader::read_file`, in order. -/
def DataReader.readLoopWrites (NDEBUG : Bool) :
    Nat → Nat → ifstream → List Char → DataReader → List (Nat × Nat)
  | 0, _, _, _, _ => []
  | k + 1, i, file, line, r =>
    let g := getline file line
    match r.set NDEBUG i g.2 with
    | (_, some _) => r.setWrites NDEBUG i g.2
    | (r1, none) =>
      r.setWrites NDEBUG i g.2 ++ DataReader.readLoopWrites NDEBUG k (i + 1) g.1 g.2 r1

/-- The cells assigned by `DataReader::read_file(filename)`, in order. -/
def DataReader.read_file_writes (NDEBUG : Bool) (fs : List Char → Option (List Char))
    (r : DataReader) (filename : List Char) : List (Nat × Nat) :=
  DataReader.readLoopWrites NDEBUG r.n 0 (ifstream.open fs (c_str filename)) [] r

/-! # Theorems -/

/-! ## Characters and C strings -/

theorem isdigit_iff (c : Char) : isdigit c = true ↔ 48 ≤ c.toNat ∧ c.toNat ≤ 57 := by
  simp [isdigit]

theorem isspace_iff (c : Char) :
    isspace c = true ↔ c.toNat = 32 ∨ (9 ≤ c.toNat ∧ c.toNat ≤ 13) := by
  simp [isspace]

theorem isdigit_not_nul {c : Char} (h : isdigit c = true) : (c != nulChar) = true := by
  have : c ≠ nulChar := by
    rintro rfl
    revert h
    decide
  simpa using this

theorem isdigit_not_space {c : Char} (h : isdigit c = true) : isspace c = false := by
  rw [isdigit_iff] at h
  cases hs : isspace c with
  | false => rfl
  | true =>
    rw [isspace_iff] at hs
    omega

theorem isdigit_not_sign {c : Char} (h : isdigit c = true) : c ≠ '-' ∧ c ≠ '+' := by
  constructor <;> (rintro rfl; revert h; decide)

theorem c_str_cons (c : Char) (t : List Char) :
    c_str (c :: t) = if c = nulChar then [] else c :: c_str t := by
  simp only [c_str, List.takeWhile_cons]
  by_cases h : c = nulChar <;> simp [h]

theorem head_c_str (s : List Char) (P : Char → Prop) (h : ∀ c ∈ s.head?, P c) :
    ∀ c ∈ (c_str s).head?, P c := by
  cases s with
  | nil => simp [c_str]
  | cons a t =>
    rw [c_str_cons]
    split
    · simp
    · simpa using h

theorem c_str_digits_append (ds suf : List Char) (hds : ∀ c ∈ ds, isdigit c = true) :
    c_str (ds ++ suf) = ds ++ c_str suf := by
  unfold c_str
  exact List.takeWhile_append_of_pos (fun c hc => isdigit_not_nul (hds c hc))

theorem takeSign_of_ne (c : Char) (t : List Char) (h1 : c ≠ '-') (h2 : c ≠ '+') :
    takeSign (c :: t) = (false, c :: t) := by
  simp [takeSign, h1, h2]

theorem takeWhile_isdigit_append (ds suf : List Char) (hds : ∀ c ∈ ds, isdigit c = true)
    (hsuf : ∀ c ∈ suf.head?, isdigit c = false) : (ds ++ suf).takeWhile isdigit = ds := by
  rw [List.takeWhile_append_of_pos hds]
  cases suf with
  | nil => simp
  | cons a t =>
    have : isdigit a = false := hsuf a (by simp)
    simp [this]

theorem decValue_append_singleton (l : List Char) (a : Char) :
    decValue (l ++ [a]) = decValue l * 10 + digitVal a := by
  simp [decValue, List.foldl_append]

/-- The value `atoi` accumulates over a run of digits is the number they denote in base 10. -/
theorem decValue_eq_ofDigits (ds : List Char) :
    decValue ds = Nat.ofDigits 10 (ds.reverse.map digitVal) := by
  induction ds using List.reverseRecOn with
  | nil => rfl
  | append_singleton l a ih =>
    rw [decValue_append_singleton, ih]
    simp [Nat.ofDigits_cons]
    ring

/-! ## Integer conversion -/

theorem toInt32_of_range (z : Int) (h1 : INT_MIN ≤ z) (h2 : z ≤ INT_MAX) : toInt32 z = z := by
  simp only [INT_MIN, INT_MAX] at h1 h2
  simp only [toInt32]
  omega

theorem atoi_nil : atoi [] = 0 := by decide

theorem strtol_digits (ds suf : List Char) (hne : ds ≠ []) (hds : ∀ c ∈ ds, isdigit c = true)
    (hsuf : ∀ c ∈ suf.head?, isdigit c = false) :
    strtol (ds ++ suf) = min ((decValue ds : Nat) : Int) LONG_MAX := by
  cases ds with
  | nil => exact absurd rfl hne
  | cons d ds1 =>
    have hd : isdigit d = true := hds d (by simp)
    have h1 : ((d :: ds1) ++ suf).dropWhile isspace = (d :: ds1) ++ suf := by
      simp [isdigit_not_space hd]
    have h2 : takeSign ((d :: ds1) ++ suf) = (false, (d :: ds1) ++ suf) :=
      takeSign_of_ne _ _ (isdigit_not_sign hd).1 (isdigit_not_sign hd).2
    unfold strtol
    rw [h1, h2]
    simp only [takeWhile_isdigit_append _ _ hds hsuf]
    simp

/-- C4, as stated, fails: the token `-5` begins with a character that is not a
decimal digit, and Integer conversion returns -5, not 0. -/
theorem FromString_int_get_minus_five :
    isdigit '-' = false ∧ FromString_int.get ['-', '5'] = -5 ∧ FromString_int.get ['-', '5'] ≠ 0 := by
  decide

/-- C4, amended: for every token whose first character is neither a decimal
digit, nor white space, nor a sign `+` or `-`, Integer conversion returns 0. -/
theorem FromString_int_get_nonnumeric (c : Char) (t : List Char)
    (hd : isdigit c = false) (hs : isspace c = false) (hm : c ≠ '-') (hp : c ≠ '+') :
    FromString_int.get (c :: t) = 0 := by
  unfold FromString_int.get
  rw [c_str_cons]
  split
  · exact atoi_nil
  · simp [atoi, strtol, hs, takeSign_of_ne _ _ hm hp, hd, decValue, LONG_MAX, toInt32]

/-- The amended C4 at the token `abc`. -/
theorem FromString_int_get_nonnumeric_witness :
    isdigit 'a' = false ∧ isspace 'a' = false ∧ 'a' ≠ '-' ∧ 'a' ≠ '+' ∧
      FromString_int.get ['a', 'b', 'c'] = 0 :=
  ⟨by decide, by decide, by decide, by decide,
    FromString_int_get_nonnumeric 'a' ['b', 'c'] (by decide) (by decide) (by decide) (by decide)⟩

/-- C5: for every token made of a non-empty run of decimal digits `ds` whose
value fits in `int`, followed by a suffix that is empty or starts with a
non-digit, Integer conversion returns the number `ds` denotes in base 10. -/
theorem FromString_int_get_digits_prefix (ds suffix : List Char) (hne : ds ≠ [])
    (hds : ∀ c ∈ ds, isdigit c = true) (hsuf : ∀ c ∈ suffix.head?, isdigit c = false)
    (hfit : ((Nat.ofDigits 10 (ds.reverse.map digitVal) : Nat) : Int) ≤ INT_MAX) :
    FromString_int.get (ds ++ suffix) = ((Nat.ofDigits 10 (ds.reverse.map digitVal) : Nat) : Int) := by
  unfold FromString_int.get atoi
  rw [c_str_digits_append _ _ hds, strtol_digits _ _ hne hds (head_c_str _ _ hsuf),
    decValue_eq_ofDigits]
  have h0 : (0 : Int) ≤ ((Nat.ofDigits 10 (ds.reverse.map digitVal) : Nat) : Int) :=
    Int.natCast_nonneg _
  have hmin : min ((Nat.ofDigits 10 (ds.reverse.map digitVal) : Nat) : Int) LONG_MAX
      = ((Nat.ofDigits 10 (ds.reverse.map digitVal) : Nat) : Int) := by
    apply min_eq_left
    simp only [INT_MAX, LONG_MAX] at *
    omega
  rw [hmin]
  apply toInt32_of_range
  · simp only [INT_MIN]; omega
  · exact hfit

/-- The statement of C5 at the token `42xyz`, whose digits denote 42. -/
theorem FromString_int_get_digits_prefix_witness :
    ['4', '2'] ≠ [] ∧ (∀ c ∈ ['4', '2'], isdigit c = true) ∧
      (∀ c ∈ ['x', 'y', 'z'].head?, isdigit c = false) ∧
      ((Nat.ofDigits 10 (['4', '2'].reverse.map digitVal) : Nat) : Int) = 42 ∧
      FromString_int.get (['4', '2'] ++ ['x', 'y', 'z']) =
        ((Nat.ofDigits 10 (['4', '2'].reverse.map digitVal) : Nat) : Int) :=
  ⟨by decide, by decide, by decide, by decide,
    FromString_int_get_digits_prefix ['4', '2'] ['x', 'y', 'z'] (by decide) (by decide)
      (by decide) (by decide)⟩

/-! ## Double conversion -/

theorem hexLiteral_of_head_nondigit (t : List Char) (h : ∀ c ∈ t.head?, isdigit c = false) :
    hexLiteral t = none := by
  unfold hexLiteral
  split
  · rename_i z x u
    have hz : isdigit z = false := h z (by simp)
    have : z ≠ '0' := by
      rintro rfl
      revert hz
      decide
    simp [this]
  · rfl

/-- C6, as stated, fails: the alphabetic token `inf` converts to an infinity, not to 0.0. -/
theorem FromString_double_get_inf :
    isdigit 'i' = false ∧ FromString_double.get ['i', 'n', 'f'] = Double.inf false ∧
      FromString_double.get ['i', 'n', 'f'] ≠ Double.zero := by
  decide

/-- C6, amended: for every token, with what follows its leading white space and
one optional sign called the subject: when the subject begins with neither a
decimal digit, nor a `.` followed by a decimal digit, nor the letters `inf` or
`nan` in any case, Double conversion returns 0.0; when the subject begins with
the letters `inf` in any case (as in `inf` and `infinity`), it returns the
infinity of the token's sign; when the subject begins with the letters `nan`
in any case, it returns a NaN. -/
theorem FromString_double_get_nonnumeric (s : List Char) :
    (hasPrefixCI ['i', 'n', 'f'] (subject (c_str s)) = false →
      hasPrefixCI ['n', 'a', 'n'] (subject (c_str s)) = false →
      (∀ c ∈ (subject (c_str s)).head?, isdigit c = false) →
      (∀ d u, subject (c_str s) = '.' :: d :: u → isdigit d = false) →
      FromString_double.get s = Double.zero) ∧
    (hasPrefixCI ['i', 'n', 'f'] (subject (c_str s)) = true →
      FromString_double.get s = Double.inf (takeSign ((c_str s).dropWhile isspace)).1) ∧
    (hasPrefixCI ['i', 'n', 'f'] (subject (c_str s)) = false →
      hasPrefixCI ['n', 'a', 'n'] (subject (c_str s)) = true →
      FromString_double.get s = Double.nan) := by
  refine ⟨?_, ?_, ?_⟩
  · intro hinf hnan hdig hdot
    unfold FromString_double.get atof strtod
    simp only [subject] at hinf hnan hdig hdot
    generalize takeSign (List.dropWhile isspace (c_str s)) = body at hinf hnan hdig hdot
    obtain ⟨neg, t⟩ := body
    simp only at hinf hnan hdig hdot
    simp only [hinf, hnan, hexLiteral_of_head_nondigit t hdig]
    cases t with
    | nil => simp [fractionPart]
    | cons a u =>
      have ha : isdigit a = false := hdig a (by simp)
      simp only [List.takeWhile_cons, List.dropWhile_cons, ha]
      by_cases hp : a = '.'
      · subst hp
        cases u with
        | nil => simp [fractionPart]
        | cons d v =>
          have hd : isdigit d = false := hdot d v rfl
          simp [fractionPart, hd]
      · simp [fractionPart, hp]
  · intro hinf
    unfold FromString_double.get atof strtod
    simp only [subject] at hinf
    simp only [hinf, if_true]
  · intro hinf hnan
    unfold FromString_double.get atof strtod
    simp only [subject] at hinf hnan
    simp only [hinf, hnan, Bool.false_eq_true, if_false, if_true]

theorem subject_abc_not_dot (d : Char) (u : List Char)
    (h : subject (c_str ['a', 'b', 'c']) = '.' :: d :: u) : isdigit d = false := by
  have h1 : (subject (c_str ['a', 'b', 'c'])).head? = some 'a' := by decide
  rw [h] at h1
  exact absurd (Option.some.inj h1) (by decide)

/-- The amended C6 at the tokens `abc`, which converts to 0.0, `infinity` and
`-INF`, which convert to the positive and the negative infinity, and `NaN`,
which converts to a NaN. -/
theorem FromString_double_get_nonnumeric_witness :
    (hasPrefixCI ['i', 'n', 'f'] (subject (c_str ['a', 'b', 'c'])) = false ∧
      hasPrefixCI ['n', 'a', 'n'] (subject (c_str ['a', 'b', 'c'])) = false ∧
      (∀ c ∈ (subject (c_str ['a', 'b', 'c'])).head?, isdigit c = false) ∧
      (∀ d u, subject (c_str ['a', 'b', 'c']) = '.' :: d :: u → isdigit d = false) ∧
      FromString_double.get ['a', 'b', 'c'] = Double.zero) ∧
    (hasPrefixCI ['i', 'n', 'f'] (subject (c_str "infinity".toList)) = true ∧
      FromString_double.get "infinity".toList = Double.inf false) ∧
    (hasPrefixCI ['i', 'n', 'f'] (subject (c_str "-INF".toList)) = true ∧
      FromString_double.get "-INF".toList = Double.inf true) ∧
    (hasPrefixCI ['i', 'n', 'f'] (subject (c_str "NaN".toList)) = false ∧
      hasPrefixCI ['n', 'a', 'n'] (subject (c_str "NaN".toList)) = true ∧
      FromString_double.get "NaN".toList = Double.nan) :=
  ⟨⟨by decide, by decide, by decide, subject_abc_not_dot,
      (FromString_double_get_nonnumeric ['a', 'b', 'c']).1 (by decide) (by decide) (by decide)
        subject_abc_not_dot⟩,
    ⟨by decide, (FromString_double_get_nonnumeric "infinity".toList).2.1 (by decide)⟩,
    ⟨by decide, (FromString_double_get_nonnumeric "-INF".toList).2.1 (by decide)⟩,
    ⟨by decide, by decide,
      (FromString_double_get_nonnumeric "NaN".toList).2.2 (by decide) (by decide)⟩⟩

/-! ## Export -/

theorem VectorInput_get_snd (v : VectorInput) : v.get.2 = v := by
  cases v <;> rfl

theorem list_set_getElem?_self {α : Type} (l : List α) (i : Nat) (a : α) (h : l[i]? = some a) :
    l.set i a = l := by
  induction l generalizing i with
  | nil => rfl
  | cons b t ih =>
    cases i with
    | zero =>
      simp at h
      simp [h]
    | succ j =>
      simp at h
      simp [ih j h]

theorem DataReader_getLoop_snd (k i : Nat) (r : DataReader) (out : List SEXP) :
    (DataReader.getLoop k i r out).2 = r := by
  induction k generalizing i out with
  | zero => rfl
  | succ k ih =>
    unfold DataReader.getLoop
    split
    · rename_i v hv
      rw [VectorInput_get_snd, list_set_getElem?_self _ _ _ hv]
      exact ih _ _
    · exact ih _ _

/-- C10: export is idempotent and read-only.  For every column (of any of the
three types) and every reader, `get()` leaves the state as it was, and a
second `get()` returns the same contents as the first. -/
theorem get_idempotent_readonly :
    (∀ v : VectorInput, v.get.2 = v ∧ v.get.2.get.1 = v.get.1) ∧
      (∀ r : DataReader, r.get.2 = r ∧ r.get.2.get.1 = r.get.1) := by
  refine ⟨fun v => ⟨VectorInput_get_snd v, by rw [VectorInput_get_snd]⟩, fun r => ?_⟩
  have h : r.get.2 = r := DataReader_getLoop_snd _ _ _ _
  exact ⟨h, by rw [h]⟩

/-! ## `scan_` -/

theorem take_succ_set {α : Type} (d : List α) (i : Nat) (c : α) (h : i < d.length) :
    (d.set i c).take (i + 1) = d.take i ++ [c] := by
  induction d generalizing i with
  | nil => simp at h
  | cons b t ih =>
    cases i with
    | zero => simp
    | succ j =>
      have hj : j < t.length := by simpa using h
      simp [ih j hj]

theorem drop_set_of_lt {α : Type} (d : List α) (i j : Nat) (c : α) (h : i < j) :
    (d.set i c).drop j = d.drop j := by
  induction d generalizing i j with
  | nil => simp
  | cons b t ih =>
    cases j with
    | zero => omega
    | succ j1 =>
      cases i with
      | zero => simp
      | succ i1 => simpa using ih i1 j1 (by omega)

/-- The loop of `scan_` on a column with storage `d`, from row `i` with `k` rows
to go: the rows `i, i+1, ...` receive the conversions of the first `k` tokens
of the stream (all of them when there are fewer), the other rows keep their
value, and exactly those tokens are pulled. -/
theorem scanLoop_spec {α : Type} (mk : List α → VectorInput) (conv : List Char → α)
    (hset : ∀ d i chunk, (mk d).set i chunk = mk (d.set i (conv chunk)))
    (k i : Nat) (ts : List (List Char)) (d : List α) (h : i + k ≤ d.length) :
    scanLoop k i { tokens := ts } (mk d) =
      (mk (d.take i ++ (ts.take k).map conv ++ d.drop (i + (ts.take k).length)),
        { tokens := ts.drop k }, (ts.take k).map Event.token) := by
  induction k generalizing i ts d with
  | zero => simp [scanLoop]
  | succ k ih =>
    cases ts with
    | nil => simp [scanLoop, FileReader.is_finished]
    | cons t ts1 =>
      have hlen : i + 1 + k ≤ (d.set i (conv t)).length := by simp; omega
      simp only [scanLoop, FileReader.is_finished, FileReader.get_token, List.isEmpty_cons,
        Bool.false_eq_true, if_false, List.headD_cons, List.tail_cons, hset, ih _ _ _ hlen]
      have h1 : (d.set i (conv t)).take (i + 1) = d.take i ++ [conv t] :=
        take_succ_set d i (conv t) (by omega)
      have h2 : (d.set i (conv t)).drop (i + 1 + (ts1.take k).length) =
          d.drop (i + ((t :: ts1).take (k + 1)).length) := by
        rw [drop_set_of_lt d i _ (conv t) (by omega)]
        congr 1
        simp
        omega
      rw [h1, h2]
      simp

theorem scanLoop_fresh {α : Type} (mk : List α → VectorInput) (conv : List Char → α)
    (hset : ∀ d i chunk, (mk d).set i chunk = mk (d.set i (conv chunk)))
    (n : Nat) (ts : List (List Char)) (a : α) :
    scanLoop n 0 { tokens := ts } (mk (List.replicate n a)) =
      (mk ((ts.take n).map conv ++ List.replicate (n - ts.length) a),
        { tokens := ts.drop n }, (ts.take n).map Event.token) := by
  rw [scanLoop_spec mk conv hset n 0 ts _ (by simp)]
  have : n - min n ts.length = n - ts.length := by omega
  simp [this]

/-- C8: for each of the three supported types, every `n` and every token stream
`ts`, `scan_` returns a column of length `n`: the conversions of the first
`min n k` tokens in stream order, then the type's default value up to row
`n`; the tokens pulled are exactly those first `min n k` tokens, one per
populated row. -/
theorem scan_column (tokensOf : List Char → List (List Char)) (filename : List Char) (n : Nat)
    (what : SEXP) :
    (TYPEOF what = INTSXP →
      scan_ tokensOf filename n what =
        (Event.alloc INTSXP n :: Event.openFile filename ::
            ((tokensOf filename).take n).map Event.token,
          Except.ok (SEXP.INTSXP (((tokensOf filename).take n).map FromString_int.get ++
            List.replicate (n - (tokensOf filename).length) 0)))) ∧
    (TYPEOF what = REALSXP →
      scan_ tokensOf filename n what =
        (Event.alloc REALSXP n :: Event.openFile filename ::
            ((tokensOf filename).take n).map Event.token,
          Except.ok (SEXP.REALSXP (((tokensOf filename).take n).map FromString_double.get ++
            List.replicate (n - (tokensOf filename).length) Double.zero)))) ∧
    (TYPEOF what = STRSXP →
      scan_ tokensOf filename n what =
        (Event.alloc STRSXP n :: Event.openFile filename ::
            ((tokensOf filename).take n).map Event.token,
          Except.ok (SEXP.STRSXP (((tokensOf filename).take n).map FromString_String.get ++
            List.replicate (n - (tokensOf filename).length) [])))) := by
  refine ⟨fun h => ?_, fun h => ?_, fun h => ?_⟩
  · have hs : scanInput n what = some (VectorInput_Integer n) := by simp [scanInput, h]
    simp only [scan_, hs, VectorInput_Integer,
      scanLoop_fresh VectorInput.IntegerVector FromString_int.get (fun _ _ _ => rfl), h]
    rfl
  · have hs : scanInput n what = some (VectorInput_Double n) := by
      simp [scanInput, h, INTSXP, REALSXP]
    simp only [scan_, hs, VectorInput_Double,
      scanLoop_fresh VectorInput.DoubleVector FromString_double.get (fun _ _ _ => rfl), h]
    rfl
  · have hs : scanInput n what = some (VectorInput_String n) := by
      simp [scanInput, h, INTSXP, REALSXP, STRSXP]
    simp only [scan_, hs, VectorInput_String,
      scanLoop_fresh VectorInput.CharacterVector FromString_String.get (fun _ _ _ => rfl), h]
    rfl

/-- The statement of C8 at the stream `1`, `2x` with `n = 3` and an Integer column. -/
theorem scan_column_witness :
    TYPEOF (SEXP.INTSXP []) = INTSXP ∧
      scan_ (fun _ => [['1'], ['2', 'x']]) ['f'] 3 (SEXP.INTSXP []) =
        (Event.alloc INTSXP 3 :: Event.openFile ['f'] ::
            (([['1'], ['2', 'x']] : List (List Char)).take 3).map Event.token,
          Except.ok (SEXP.INTSXP ((([['1'], ['2', 'x']] : List (List Char)).take 3).map
            FromString_int.get ++ List.replicate (3 - ([['1'], ['2', 'x']] : List (List Char)).length) 0))) :=
  ⟨by decide, (scan_column (fun _ => [['1'], ['2', 'x']]) ['f'] 3 (SEXP.INTSXP [])).1 (by decide)⟩

/-- C9: for every type tag outside `INTSXP`, `REALSXP`, `STRSXP`, every file name
and every `n`, `scan_` fails with `unsupported type` having performed no effect
(no column allocated, no file opened, no token read); for the three supported
tags it returns a column. -/
theorem scan_unsupported_type (tokensOf : List Char → List (List Char)) (filename : List Char)
    (n : Nat) (what : SEXP) :
    (TYPEOF what ≠ INTSXP → TYPEOF what ≠ REALSXP → TYPEOF what ≠ STRSXP →
      scan_ tokensOf filename n what = ([], Except.error (Failure.stop "unsupported type"))) ∧
    (TYPEOF what = INTSXP ∨ TYPEOF what = REALSXP ∨ TYPEOF what = STRSXP →
      ∃ evs col, scan_ tokensOf filename n what = (evs, Except.ok col)) := by
  constructor
  · intro h1 h2 h3
    simp [scan_, scanInput, h1, h2, h3]
  · intro h
    rcases h with h | h | h
    · have hs : scanInput n what = some (VectorInput_Integer n) := by simp [scanInput, h]
      exact ⟨_, _, by simp only [scan_, hs]; rfl⟩
    · have hs : scanInput n what = some (VectorInput_Double n) := by
        simp [scanInput, h, INTSXP, REALSXP]
      exact ⟨_, _, by simp only [scan_, hs]; rfl⟩
    · have hs : scanInput n what = some (VectorInput_String n) := by
        simp [scanInput, h, INTSXP, REALSXP, STRSXP]
      exact ⟨_, _, by simp only [scan_, hs]; rfl⟩

/-- The statement of C9 at the tag of `NULL` and at the tag of a character vector. -/
theorem scan_unsupported_type_witness :
    TYPEOF SEXP.NILSXP ≠ INTSXP ∧ TYPEOF SEXP.NILSXP ≠ REALSXP ∧ TYPEOF SEXP.NILSXP ≠ STRSXP ∧
      scan_ (fun _ => [['1']]) ['f'] 1 SEXP.NILSXP =
        ([], Except.error (Failure.stop "unsupported type")) ∧
      TYPEOF (SEXP.STRSXP []) = STRSXP ∧
      (∃ evs col, scan_ (fun _ => [['1']]) ['f'] 1 (SEXP.STRSXP []) = (evs, Except.ok col)) :=
  ⟨by decide, by decide, by decide,
    (scan_unsupported_type (fun _ => [['1']]) ['f'] 1 SEXP.NILSXP).1 (by decide) (by decide)
      (by decide),
    by decide,
    (scan_unsupported_type (fun _ => [['1']]) ['f'] 1 (SEXP.STRSXP [])).2 (Or.inr (Or.inr rfl))⟩

/-! ## The shape of the table -/

theorem DataReader_new_shape (n : Nat) : (DataReader.new n).Shape n :=
  ⟨rfl, _, _, rfl, by simp, by simp⟩

theorem DataReader_setCell_shape (n : Nat) (r : DataReader) (j i : Nat) (chunk : List Char)
    (h : r.Shape n) : (r.setCell j i chunk).Shape n := by
  obtain ⟨hc, xs, ys, hd, hx, hy⟩ := h
  unfold DataReader.setCell
  rw [hd]
  match j with
  | 0 => exact ⟨hc, _, _, rfl, by simpa using hx, hy⟩
  | 1 => exact ⟨hc, _, _, rfl, hx, by simpa using hy⟩
  | j + 2 => exact ⟨hc, xs, ys, by simpa using hd, hx, hy⟩

theorem DataReader_setLoop_shape (NDEBUG : Bool) (n i k j : Nat) (r : DataReader)
    (h : r.Shape n) : (DataReader.setLoop NDEBUG i k j r).1.Shape n := by
  induction k generalizing j r with
  | zero => exact h
  | succ k ih =>
    unfold DataReader.setLoop
    split
    · exact h
    · exact ih _ _ (DataReader_setCell_shape n _ _ _ _ h)

theorem DataReader_set_shape (NDEBUG : Bool) (n i : Nat) (line : List Char) (r : DataReader)
    (h : r.Shape n) : (r.set NDEBUG i line).1.Shape n := by
  unfold DataReader.set
  split
  · exact h
  · exact DataReader_setLoop_shape NDEBUG n i _ _ _ h

theorem DataReader_readLoop_shape (NDEBUG : Bool) (n k i : Nat) (file : ifstream)
    (line : List Char) (r : DataReader) (h : r.Shape n) :
    (DataReader.readLoop NDEBUG k i file line r).1.Shape n := by
  induction k generalizing i file line r with
  | zero => exact h
  | succ k ih =>
    have hs := DataReader_set_shape NDEBUG n i (getline file line).2 r h
    simp only [DataReader.readLoop]
    rcases hr : DataReader.set NDEBUG r i (getline file line).2 with ⟨r1, e⟩
    rw [hr] at hs
    cases e with
    | none => exact ih _ _ _ _ hs
    | some e => exact hs

theorem DataReader_get_of_shape (n : Nat) (r : DataReader) (h : r.Shape n) :
    ∃ xs ys, r.get.1 = [SEXP.INTSXP xs, SEXP.REALSXP ys] ∧ xs.length = n ∧ ys.length = n := by
  obtain ⟨hc, xs, ys, hd, hx, hy⟩ := h
  refine ⟨xs, ys, ?_, hx, hy⟩
  simp [DataReader.get, DataReader.getLoop, hc, hd, VectorInput.get]

/-- C7: for every `n` and every file (any contents, or none that can be opened),
the reader that `read_file` leaves, whether it returned or was ended by a
failure, exports a table of exactly 2 columns, an Integer column and a Double
column, each of length `n`; so does every table `read_csv` returns. -/
theorem read_file_table_shape (NDEBUG : Bool) (fs : List Char → Option (List Char))
    (filename : List Char) (n : Nat) :
    (∃ xs ys, ((DataReader.new n).read_file NDEBUG fs filename).1.get.1 =
        [SEXP.INTSXP xs, SEXP.REALSXP ys] ∧ xs.length = n ∧ ys.length = n) ∧
    (∀ table, read_csv NDEBUG fs filename n = Except.ok table →
      ∃ xs ys, table = [SEXP.INTSXP xs, SEXP.REALSXP ys] ∧ xs.length = n ∧ ys.length = n) := by
  have h : ((DataReader.new n).read_file NDEBUG fs filename).1.Shape n :=
    DataReader_readLoop_shape NDEBUG n _ _ _ _ _ (DataReader_new_shape n)
  refine ⟨DataReader_get_of_shape n _ h, fun table ht => ?_⟩
  unfold read_csv at ht
  split at ht
  · cases ht
  · rename_i reader heq
    simp only [heq] at h
    cases ht
    exact DataReader_get_of_shape n _ h

/-- The statement of C7 at the one-line file `1,1.5` with `n = 1`. -/
theorem read_file_table_shape_witness :
    read_csv true (oneFile "1,1.5\n".toList) ['f'] 1 =
        Except.ok [SEXP.INTSXP [1], SEXP.REALSXP [Double.finite false 1023 (2 ^ 51)]] ∧
      ∃ xs ys, [SEXP.INTSXP [1], SEXP.REALSXP [Double.finite false 1023 (2 ^ 51)]] =
        [SEXP.INTSXP xs, SEXP.REALSXP ys] ∧ xs.length = 1 ∧ ys.length = 1 :=
  ⟨by decide, (read_file_table_shape true (oneFile "1,1.5\n".toList) ['f'] 1).2 _ (by decide)⟩

/-! ## Short files -/

/-- C2 fails on the code: with `n = 5` and a file of 3 lines whose last line does
not end with a line feed, `read_csv` does not fail, and rows 3 and 4 hold the
values of line 3 (3 and 3.5) again, not 0 and 0.0: the fourth and fifth
`getline` fail and leave the line buffer as it was, and `set` parses it again. -/
theorem read_csv_short_file_stale_line (NDEBUG : Bool) :
    read_csv NDEBUG (oneFile "1,1.5\n2,2.5\n3,3.5".toList) ['f'] 5 =
      Except.ok [SEXP.INTSXP [1, 2, 3, 3, 3],
        SEXP.REALSXP [Double.finite false 1023 (2 ^ 51), Double.finite false 1024 (2 ^ 50),
          Double.finite false 1024 (2 ^ 51 + 2 ^ 50), Double.finite false 1024 (2 ^ 51 + 2 ^ 50),
          Double.finite false 1024 (2 ^ 51 + 2 ^ 50)]] := by
  cases NDEBUG <;> decide

/-- With a line feed after the last line the missing rows are set from an empty
line: when assertions are compiled out they hold 0 and 0.0, otherwise the call
is ended by the token iterator's assertion. -/
theorem read_csv_short_file_trailing_newline :
    read_csv true (oneFile "1,1.5\n2,2.5\n3,3.5\n".toList) ['f'] 5 =
        Except.ok [SEXP.INTSXP [1, 2, 3, 0, 0],
          SEXP.REALSXP [Double.finite false 1023 (2 ^ 51), Double.finite false 1024 (2 ^ 50),
            Double.finite false 1024 (2 ^ 51 + 2 ^ 50), Double.zero, Double.zero]] ∧
      read_csv false (oneFile "1,1.5\n2,2.5\n3,3.5\n".toList) ['f'] 5 =
        Except.error (Failure.assertion_failed "valid_") := by
  decide

/-! ## Files that cannot be opened -/

theorem getline_failed (line : List Char) :
    getline { buf := [], eofbit := false, failbit := true } line =
      ({ buf := [], eofbit := false, failbit := true }, line) := by
  simp [getline]

theorem list_set_replicate_self {α : Type} (n i : Nat) (a : α) :
    (List.replicate n a).set i a = List.replicate n a := by
  induction n generalizing i with
  | zero => rfl
  | succ n ih =>
    cases i with
    | zero => rfl
    | succ j => simp [List.replicate_succ, ih]

theorem DataReader_new_set_nil (n i : Nat) :
    (DataReader.new n).set true i [] = (DataReader.new n, none) := by
  have h0 : FromString_int.get [] = 0 := by decide
  have h1 : FromString_double.get [] = Double.zero := by decide
  simp [DataReader.set, DataReader.new, Tokenizer.assign, Tokenizer.new, token_iterator.begin,
    DataReader.setLoop, Tokenizer.get_token, token_iterator.increment, token_iterator.call,
    token_iterator.dereference, DataReader.setCell, VectorInput_Integer, VectorInput_Double,
    VectorInput.set, h0, h1, list_set_replicate_self, token_iterator.default]

theorem DataReader_readLoop_unopened (n k i : Nat) :
    DataReader.readLoop true k i { buf := [], eofbit := false, failbit := true } []
      (DataReader.new n) = (DataReader.new n, none) := by
  induction k generalizing i with
  | zero => rfl
  | succ k ih =>
    simp only [DataReader.readLoop, getline_failed, DataReader_new_set_nil, ih]

theorem DataReader_set_nil_assert (r : DataReader) (i : Nat) (h : r.ncol = 2) :
    (r.set false i []).2 = some (Failure.assertion_failed "valid_") := by
  simp [DataReader.set, Tokenizer.assign, token_iterator.begin, h, DataReader.setLoop,
    Tokenizer.get_token, token_iterator.increment]

/-- C3, as stated, fails: for a path that names no file that can be opened,
`read_csv` with `n = 2` reports no file-open error; with assertions compiled
out it returns the default-filled table, and otherwise it is ended by the
token iterator's assertion. -/
theorem read_csv_unopenable_no_error :
    oneFile [] ['g'] = none ∧
      read_csv true (oneFile []) ['g'] 2 =
        Except.ok [SEXP.INTSXP [0, 0], SEXP.REALSXP [Double.zero, Double.zero]] ∧
      read_csv false (oneFile []) ['g'] 2 = Except.error (Failure.assertion_failed "valid_") := by
  decide

/-- C3, amended: for every path that does not name a file that can be opened,
`read_csv` reports no file-open error.  Every `getline` fails and leaves the
line buffer empty, so each row is set from an empty line: with assertions
compiled out the call returns the table of `n` zeros in each column; with
assertions on it returns the empty table for `n = 0` and is otherwise ended by
the token iterator's assertion `valid_`. -/
theorem read_csv_unopenable (fs : List Char → Option (List Char)) (file : List Char) (n : Nat)
    (h : fs (c_str file) = none) :
    read_csv true fs file n =
        Except.ok [SEXP.INTSXP (List.replicate n 0), SEXP.REALSXP (List.replicate n Double.zero)] ∧
      read_csv false fs file n =
        (if n = 0 then Except.ok [SEXP.INTSXP [], SEXP.REALSXP []]
          else Except.error (Failure.assertion_failed "valid_")) := by
  constructor
  · simp only [read_csv, DataReader.read_file, ifstream.open, h]
    have h1 : (DataReader.new n).n = n := rfl
    rw [h1, DataReader_readLoop_unopened]
    rfl
  · cases n with
    | zero => rfl
    | succ k =>
      have hs := DataReader_set_nil_assert (DataReader.new (k + 1)) 0 rfl
      simp only [read_csv, DataReader.read_file, ifstream.open, h]
      have h1 : (DataReader.new (k + 1)).n = k + 1 := rfl
      rw [h1]
      simp only [DataReader.readLoop, getline_failed]
      rcases hr : DataReader.set false (DataReader.new (k + 1)) 0 [] with ⟨r1, e⟩
      rw [hr] at hs
      simp only at hs
      subst hs
      simp

/-- The amended C3 at a name no file has, with `n = 3`. -/
theorem read_csv_unopenable_witness :
    oneFile [] (c_str ['g']) = none ∧
      read_csv true (oneFile []) ['g'] 3 =
        Except.ok [SEXP.INTSXP (List.replicate 3 0), SEXP.REALSXP (List.replicate 3 Double.zero)] ∧
      read_csv false (oneFile []) ['g'] 3 =
        (if 3 = 0 then Except.ok [SEXP.INTSXP [], SEXP.REALSXP []]
          else Except.error (Failure.assertion_failed "valid_")) :=
  ⟨by decide, read_csv_unopenable (oneFile []) ['g'] 3 (by decide)⟩

/-! ## Well-formed fields -/

theorem digitsValue_eq_decValue (ds : List Char) : digitsValue ds = decValue ds :=
  (decValue_eq_ofDigits ds).symm

theorem strtol_neg_digits (ds suf : List Char) (hds : ∀ c ∈ ds, isdigit c = true)
    (hsuf : ∀ c ∈ suf.head?, isdigit c = false) :
    strtol ('-' :: (ds ++ suf)) = max (-((decValue ds : Nat) : Int)) LONG_MIN := by
  have h1 : ('-' :: (ds ++ suf)).dropWhile isspace = '-' :: (ds ++ suf) := by
    have : isspace '-' = false := by decide
    simp [this]
  unfold strtol
  rw [h1]
  simp [takeSign, takeWhile_isdigit_append _ _ hds hsuf]

theorem lower_digit {c : Char} (h : isdigit c = true) : lower c = c := by
  rw [isdigit_iff] at h
  have : ¬ (65 ≤ c.toNat ∧ c.toNat ≤ 90) := by omega
  simp [lower, this]

theorem digit_not_letter {c : Char} (h : isdigit c = true) : c ≠ 'x' ∧ c ≠ 'i' ∧ c ≠ 'n' := by
  refine ⟨?_, ?_, ?_⟩ <;> (rintro rfl; revert h; decide)

theorem hexLiteral_of_second (z x : Char) (u : List Char) (h : lower x ≠ 'x') :
    hexLiteral (z :: x :: u) = none := by
  simp [hexLiteral, h]

/-! ## Well-formed fields: characters -/

/-- A character whose code is none of NUL, line feed, quote, comma and backslash
is neither special for the tokenizer, nor a line end, nor the end of a C
string. -/
theorem safeChar_of_toNat {c : Char}
    (h : c.toNat ≠ 0 ∧ c.toNat ≠ 10 ∧ c.toNat ≠ 34 ∧ c.toNat ≠ 44 ∧ c.toNat ≠ 92) :
    plainChar c ∧ (c != '\n') = true ∧ (c != nulChar) = true := by
  obtain ⟨h0, h10, h34, h44, h92⟩ := h
  refine ⟨⟨?_, ?_, ?_⟩, ?_, ?_⟩
  · rintro rfl; exact h92 (by decide)
  · rintro rfl; exact h44 (by decide)
  · rintro rfl; exact h34 (by decide)
  · have : c ≠ '\n' := by rintro rfl; exact h10 (by decide)
    simpa using this
  · have : c ≠ nulChar := by rintro rfl; exact h0 (by decide)
    simpa using this

theorem isxdigit_iff (c : Char) :
    isxdigit c = true ↔
      (48 ≤ c.toNat ∧ c.toNat ≤ 57) ∨ (97 ≤ c.toNat ∧ c.toNat ≤ 102) ∨
        (65 ≤ c.toNat ∧ c.toNat ≤ 70) := by
  simp [isxdigit, isdigit, or_assoc]

theorem lower_eq_toLower (c : Char) : lower c = c.toLower := by
  simp [lower, Char.toLower]

theorem toNat_of_toLower_letter {c : Char} (h : 97 ≤ c.toLower.toNat ∧ c.toLower.toNat ≤ 122) :
    (65 ≤ c.toNat ∧ c.toNat ≤ 90) ∨ (97 ≤ c.toNat ∧ c.toNat ≤ 122) := by
  unfold Char.toLower at h
  by_cases hc : c.toNat ≥ 65 ∧ c.toNat ≤ 90
  · exact Or.inl hc
  · simp only [hc, if_false] at h
    exact Or.inr h

theorem safeChar_digit {c : Char} (h : isdigit c = true) :
    plainChar c ∧ (c != '\n') = true ∧ (c != nulChar) = true := by
  rw [isdigit_iff] at h
  exact safeChar_of_toNat (by omega)

theorem safeChar_xdigit {c : Char} (h : isxdigit c = true) :
    plainChar c ∧ (c != '\n') = true ∧ (c != nulChar) = true := by
  rw [isxdigit_iff] at h
  exact safeChar_of_toNat (by omega)

theorem safeChar_space {c : Char} (h : isspace c = true ∧ c ≠ '\n') :
    plainChar c ∧ (c != '\n') = true ∧ (c != nulChar) = true := by
  obtain ⟨h, hn⟩ := h
  rw [isspace_iff] at h
  have h10 : c.toNat ≠ 10 := by
    intro h10
    apply hn
    have : c = Char.ofNat c.toNat := (Char.ofNat_toNat c).symm
    rw [this, h10]
  exact safeChar_of_toNat (by omega)

theorem safeChar_word {w word : List Char} (h : w.map Char.toLower = word)
    (hword : ∀ l ∈ word, 97 ≤ l.toNat ∧ l.toNat ≤ 122) :
    ∀ c ∈ w, plainChar c ∧ (c != '\n') = true ∧ (c != nulChar) = true := by
  intro c hc
  have hl : c.toLower ∈ word := by
    rw [← h]
    exact List.mem_map_of_mem _ hc
  have := toNat_of_toLower_letter (hword _ hl)
  exact safeChar_of_toNat (by omega)

theorem safeChar_signText (sign : Option Bool) :
    ∀ c ∈ signText sign, plainChar c ∧ (c != '\n') = true ∧ (c != nulChar) = true := by
  rcases sign with _ | _ | _ <;> decide

theorem safeChar_fractionText (p : Char → Bool) (fr : Option (List Char))
    (hp : ∀ c, p c = true → plainChar c ∧ (c != '\n') = true ∧ (c != nulChar) = true)
    (h : ∀ c ∈ fractionDigits fr, p c = true) :
    ∀ c ∈ fractionText fr, plainChar c ∧ (c != '\n') = true ∧ (c != nulChar) = true := by
  intro c hc
  cases fr with
  | none => simp [fractionText] at hc
  | some ds =>
    simp only [fractionText, List.mem_cons] at hc
    rcases hc with rfl | hc
    · decide
    · exact hp c (h c hc)

theorem safeChar_exponentText (lo up : Char) (e : Option Exponent)
    (hlo : plainChar lo ∧ (lo != '\n') = true ∧ (lo != nulChar) = true)
    (hup : plainChar up ∧ (up != '\n') = true ∧ (up != nulChar) = true)
    (h : exponentWellFormed lo up e) :
    ∀ c ∈ exponentText e, plainChar c ∧ (c != '\n') = true ∧ (c != nulChar) = true := by
  intro c hc
  cases e with
  | none => simp [exponentText] at hc
  | some x =>
    obtain ⟨hm, _, hds⟩ := h
    simp only [exponentText, Exponent.text, List.mem_cons, List.mem_append] at hc
    rcases hc with rfl | hc | hc
    · rcases hm with hm | hm <;> rw [hm] <;> assumption
    · exact safeChar_signText _ c hc
    · exact safeChar_digit (hds c hc)

theorem safeChar_FloatBody (b : FloatBody) (h : b.WellFormed) :
    ∀ c ∈ b.text, plainChar c ∧ (c != '\n') = true ∧ (c != nulChar) = true := by
  intro c hc
  cases b with
  | decimal ip fr e =>
    obtain ⟨_, hip, hfr, he⟩ := h
    simp only [FloatBody.text, List.mem_append] at hc
    rcases hc with hc | hc | hc
    · exact safeChar_digit (hip c hc)
    · exact safeChar_fractionText isdigit fr (fun _ => safeChar_digit) hfr c hc
    · exact safeChar_exponentText 'e' 'E' e (by decide) (by decide) he c hc
  | hexadecimal x ip fr e =>
    obtain ⟨hx, _, hip, hfr, he⟩ := h
    simp only [FloatBody.text, List.mem_cons, List.mem_append] at hc
    rcases hc with rfl | rfl | hc | hc | hc
    · decide
    · rcases hx with rfl | rfl <;> decide
    · exact safeChar_xdigit (hip c hc)
    · exact safeChar_fractionText isxdigit fr (fun _ => safeChar_xdigit) hfr c hc
    · exact safeChar_exponentText 'p' 'P' e (by decide) (by decide) he c hc
  | infinity w =>
    rcases h with h | h
    · exact safeChar_word h (by decide) c hc
    · exact safeChar_word h (by decide) c hc
  | nan w => exact safeChar_word h (by decide) c hc

theorem safeChar_IntField (f : IntField) (h : f.WellFormed) :
    ∀ c ∈ f.text, plainChar c ∧ (c != '\n') = true ∧ (c != nulChar) = true := by
  intro c hc
  obtain ⟨hws, _, hds, _⟩ := h
  simp only [IntField.text, List.mem_append] at hc
  rcases hc with (hc | hc) | hc
  · exact safeChar_space (hws c hc)
  · exact safeChar_signText _ c hc
  · exact safeChar_digit (hds c hc)

theorem safeChar_FloatField (f : FloatField) (h : f.WellFormed) :
    ∀ c ∈ f.text, plainChar c ∧ (c != '\n') = true ∧ (c != nulChar) = true := by
  intro c hc
  obtain ⟨hws, hb⟩ := h
  simp only [FloatField.text, List.mem_append] at hc
  rcases hc with (hc | hc) | hc
  · exact safeChar_space (hws c hc)
  · exact safeChar_signText _ c hc
  · exact safeChar_FloatBody _ hb c hc

theorem c_str_of_no_nul (s : List Char) (h : ∀ c ∈ s, (c != nulChar) = true) : c_str s = s := by
  unfold c_str
  exact List.takeWhile_eq_self_iff.2 h

/-! ## Well-formed fields: conversion -/

theorem takeWhile_append_stop (p : Char → Bool) (ds suf : List Char)
    (hds : ∀ c ∈ ds, p c = true) (hsuf : ∀ c ∈ suf.head?, p c = false) :
    (ds ++ suf).takeWhile p = ds := by
  rw [List.takeWhile_append_of_pos hds]
  cases suf with
  | nil => simp
  | cons a t =>
    have : p a = false := hsuf a (by simp)
    simp [this]

theorem dropWhile_append_stop (p : Char → Bool) (ds suf : List Char)
    (hds : ∀ c ∈ ds, p c = true) (hsuf : ∀ c ∈ suf.head?, p c = false) :
    (ds ++ suf).dropWhile p = suf := by
  rw [List.dropWhile_append_of_pos hds]
  cases suf with
  | nil => simp
  | cons a t =>
    have : p a = false := hsuf a (by simp)
    simp [this]

theorem head?_append_of_head {P : Char → Prop} (a b : List Char)
    (ha : ∀ c ∈ a.head?, P c) (hb : ∀ c ∈ b.head?, P c) : ∀ c ∈ (a ++ b).head?, P c := by
  cases a with
  | nil => simpa using hb
  | cons x t => simpa using ha

theorem takeSign_signText (sign : Option Bool) (t : List Char)
    (ht : ∀ c ∈ t.head?, c ≠ '-' ∧ c ≠ '+') :
    takeSign (signText sign ++ t) = (signNeg sign, t) := by
  rcases sign with _ | _ | _
  · cases t with
    | nil => rfl
    | cons a u =>
      have := ht a (by simp)
      simp [signText, signNeg, takeSign, this.1, this.2]
  · simp [signText, signNeg, takeSign]
  · simp [signText, signNeg, takeSign]

/-- The subject sequence of a field: the leading white space is skipped and the
optional sign taken. -/
theorem takeSign_dropWhile_field (ws : List Char) (sign : Option Bool) (t : List Char)
    (hws : ∀ c ∈ ws, isspace c = true ∧ c ≠ '\n')
    (ht : ∀ c ∈ t.head?, isspace c = false ∧ c ≠ '-' ∧ c ≠ '+') :
    takeSign ((ws ++ signText sign ++ t).dropWhile isspace) = (signNeg sign, t) := by
  have hh : ∀ c ∈ (signText sign ++ t).head?, isspace c = false := by
    apply head?_append_of_head
    · rcases sign with _ | _ | _ <;> decide
    · exact fun c hc => (ht c hc).1
  rw [List.append_assoc, dropWhile_append_stop isspace ws _ (fun c hc => (hws c hc).1) hh]
  exact takeSign_signText sign t (fun c hc => (ht c hc).2)

theorem head_digit_ok {ds : List Char} (hds : ∀ c ∈ ds, isdigit c = true) :
    ∀ c ∈ ds.head?, isspace c = false ∧ c ≠ '-' ∧ c ≠ '+' := by
  intro c hc
  have hd : isdigit c = true := hds c (List.mem_of_mem_head? hc)
  exact ⟨isdigit_not_space hd, isdigit_not_sign hd⟩

theorem FromString_int_get_field (f : IntField) (h : f.WellFormed) :
    FromString_int.get f.text = f.value := by
  have hcs := c_str_of_no_nul f.text (fun c hc => (safeChar_IntField f h c hc).2.2)
  obtain ⟨hws, hne, hds, hlo, hhi⟩ := h
  unfold IntField.value at hlo hhi ⊢
  rw [digitsValue_eq_decValue] at hlo hhi ⊢
  unfold FromString_int.get atoi strtol
  rw [hcs]
  unfold IntField.text
  rw [takeSign_dropWhile_field f.space f.sign f.digits hws (head_digit_ok hds)]
  have htw : f.digits.takeWhile isdigit = f.digits := by
    simpa using takeWhile_append_stop isdigit f.digits [] hds (by simp)
  simp only [htw]
  cases hn : signNeg f.sign with
  | false =>
    simp only [hn, Bool.false_eq_true, if_false] at hlo hhi ⊢
    have hmin : min ((decValue f.digits : Nat) : Int) LONG_MAX = ((decValue f.digits : Nat) : Int) := by
      apply min_eq_left
      simp only [INT_MAX, LONG_MAX] at *
      omega
    rw [hmin]
    exact toInt32_of_range _ hlo hhi
  | true =>
    simp only [hn, if_true] at hlo hhi ⊢
    have hmax : max (-((decValue f.digits : Nat) : Int)) LONG_MIN = -((decValue f.digits : Nat) : Int) := by
      apply max_eq_left
      simp only [INT_MIN, LONG_MIN] at *
      omega
    rw [hmax]
    exact toInt32_of_range _ hlo hhi

theorem hexValue_append_singleton (l : List Char) (a : Char) :
    hexValue (l ++ [a]) = hexValue l * 16 + xdigitVal a := by
  simp [hexValue, List.foldl_append]

theorem hexDigitsValue_eq_hexValue (ds : List Char) : hexDigitsValue ds = hexValue ds := by
  unfold hexDigitsValue
  induction ds using List.reverseRecOn with
  | nil => rfl
  | append_singleton l a ih =>
    rw [hexValue_append_singleton, ← ih]
    simp [Nat.ofDigits_cons]
    ring

theorem exponentPart_exponentText (lo up marker : Char) (e : Option Exponent)
    (hlo : lower lo = marker) (hup : lower up = marker) (h : exponentWellFormed lo up e) :
    exponentPart marker (exponentText e) = exponentValue e := by
  cases e with
  | none => rfl
  | some x =>
    obtain ⟨hm, hne, hds⟩ := h
    have hl : lower x.marker = marker := by
      rcases hm with hm | hm <;> rw [hm] <;> assumption
    have hts := takeSign_signText x.sign x.digits (fun c hc => (head_digit_ok hds c hc).2)
    have htw : x.digits.takeWhile isdigit = x.digits := by
      simpa using takeWhile_append_stop isdigit x.digits [] hds (by simp)
    simp only [exponentText, Exponent.text, exponentPart, hl, if_true, hts, htw, hne, if_false,
      exponentValue, Exponent.value, digitsValue_eq_decValue]

theorem head_exponentText (lo up : Char) (e : Option Exponent) (h : exponentWellFormed lo up e) :
    ∀ c ∈ (exponentText e).head?, c = lo ∨ c = up := by
  intro c hc
  cases e with
  | none => simp [exponentText] at hc
  | some x =>
    simp only [exponentText, Exponent.text, List.head?_cons, Option.mem_def,
      Option.some.injEq] at hc
    rw [← hc]
    exact h.1

theorem head_fractionText_append (fr : Option (List Char)) (rest : List Char) {P : Char → Prop}
    (hdot : P '.') (hrest : ∀ c ∈ rest.head?, P c) :
    ∀ c ∈ (fractionText fr ++ rest).head?, P c := by
  cases fr with
  | none => simpa [fractionText] using hrest
  | some ds => simpa [fractionText] using hdot

theorem fractionPart_fractionText (p : Char → Bool) (fr : Option (List Char)) (rest : List Char)
    (hfr : ∀ c ∈ fractionDigits fr, p c = true)
    (hrest : ∀ c ∈ rest.head?, p c = false ∧ c ≠ '.') :
    fractionPart p (fractionText fr ++ rest) = (fractionDigits fr, rest) := by
  cases fr with
  | none =>
    cases rest with
    | nil => rfl
    | cons a u =>
      have := (hrest a (by simp)).2
      simp [fractionText, fractionDigits, fractionPart, this]
  | some ds =>
    simp only [fractionText, fractionDigits, List.cons_append, fractionPart, if_true] at hfr ⊢
    rw [takeWhile_append_stop p ds rest hfr (fun c hc => (hrest c hc).1),
      dropWhile_append_stop p ds rest hfr (fun c hc => (hrest c hc).1)]

theorem hasPrefixCI_of_head (p0 : Char) (p t : List Char) (h : ∀ c ∈ t.head?, lower c ≠ p0) :
    hasPrefixCI (p0 :: p) t = false := by
  cases t with
  | nil => simp [hasPrefixCI]
  | cons a u =>
    have := h a (by simp)
    simp [hasPrefixCI, this]

theorem hexLiteral_of_no_x (t : List Char) (h : ∀ c ∈ t, lower c ≠ 'x') : hexLiteral t = none := by
  match t, h with
  | [], _ => rfl
  | [_], _ => rfl
  | z :: x :: u, h => exact hexLiteral_of_second z x u (h x (by simp))

theorem hasPrefixCI_eq (p s : List Char) :
    hasPrefixCI p s = ((s.map Char.toLower).take p.length == p) := by
  have : lower = Char.toLower := funext lower_eq_toLower
  simp [hasPrefixCI, this, List.map_take]

theorem lower_sign_ok (sign : Option Bool) :
    ∀ c ∈ signText sign, lower c ≠ 'i' ∧ lower c ≠ 'n' ∧ lower c ≠ 'x' := by
  rcases sign with _ | _ | _ <;> decide

theorem lower_digit_ok {c : Char} (h : isdigit c = true) :
    lower c ≠ 'i' ∧ lower c ≠ 'n' ∧ lower c ≠ 'x' := by
  rw [lower_digit h]
  exact ⟨(digit_not_letter h).2.1, (digit_not_letter h).2.2, (digit_not_letter h).1⟩

theorem lower_decimal_ok (ip : List Char) (fr : Option (List Char)) (e : Option Exponent)
    (hip : ∀ c ∈ ip, isdigit c = true) (hfr : ∀ c ∈ fractionDigits fr, isdigit c = true)
    (he : exponentWellFormed 'e' 'E' e) :
    ∀ c ∈ ip ++ (fractionText fr ++ exponentText e),
      lower c ≠ 'i' ∧ lower c ≠ 'n' ∧ lower c ≠ 'x' := by
  intro c hc
  simp only [List.mem_append] at hc
  rcases hc with hc | hc | hc
  · exact lower_digit_ok (hip c hc)
  · cases fr with
    | none => simp [fractionText] at hc
    | some ds =>
      simp only [fractionText, List.mem_cons] at hc
      rcases hc with rfl | hc
      · decide
      · exact lower_digit_ok (hfr c hc)
  · cases e with
    | none => simp [exponentText] at hc
    | some x =>
      obtain ⟨hm, _, hds⟩ := he
      simp only [exponentText, Exponent.text, List.mem_cons, List.mem_append] at hc
      rcases hc with rfl | hc | hc
      · rcases hm with hm | hm <;> rw [hm] <;> decide
      · exact lower_sign_ok _ c hc
      · exact lower_digit_ok (hds c hc)

theorem strtod_decimal (s : List Char) (sgn : Bool) (ip : List Char) (fr : Option (List Char))
    (e : Option Exponent) (h : (FloatBody.decimal ip fr e).WellFormed)
    (hs : takeSign (s.dropWhile isspace) = (sgn, (FloatBody.decimal ip fr e).text)) :
    strtod s = (FloatBody.decimal ip fr e).value sgn := by
  obtain ⟨hne, hip, hfr, he⟩ := h
  have hall := lower_decimal_ok ip fr e hip hfr he
  have hex : ∀ c ∈ (exponentText e).head?, isdigit c = false ∧ c ≠ '.' := by
    intro c hc
    rcases head_exponentText 'e' 'E' e he c hc with rfl | rfl <;> decide
  have hsuf : ∀ c ∈ (fractionText fr ++ exponentText e).head?, isdigit c = false :=
    head_fractionText_append fr _ (by decide) (fun c hc => (hex c hc).1)
  have hi : hasPrefixCI ['i', 'n', 'f'] (ip ++ (fractionText fr ++ exponentText e)) = false :=
    hasPrefixCI_of_head _ _ _ (fun c hc => (hall c (List.mem_of_mem_head? hc)).1)
  have hn : hasPrefixCI ['n', 'a', 'n'] (ip ++ (fractionText fr ++ exponentText e)) = false :=
    hasPrefixCI_of_head _ _ _ (fun c hc => (hall c (List.mem_of_mem_head? hc)).2.1)
  have hx : hexLiteral (ip ++ (fractionText fr ++ exponentText e)) = none :=
    hexLiteral_of_no_x _ (fun c hc => (hall c hc).2.2)
  have hne1 : ¬ (ip = [] ∧ fractionDigits fr = []) := by
    rintro ⟨h1, h2⟩
    rcases hne with h | h
    · exact h h1
    · exact h h2
  unfold strtod
  rw [hs]
  simp only [FloatBody.text, FloatBody.value, hi, hn, hx, Bool.false_eq_true, if_false,
    takeWhile_append_stop isdigit ip _ hip hsuf, dropWhile_append_stop isdigit ip _ hip hsuf,
    fractionPart_fractionText isdigit fr _ hfr hex, hne1,
    exponentPart_exponentText 'e' 'E' 'e' e (by decide) (by decide) he,
    digitsValue_eq_decValue]

theorem strtod_hexadecimal (s : List Char) (sgn : Bool) (x : Char) (ip : List Char)
    (fr : Option (List Char)) (e : Option Exponent)
    (h : (FloatBody.hexadecimal x ip fr e).WellFormed)
    (hs : takeSign (s.dropWhile isspace) = (sgn, (FloatBody.hexadecimal x ip fr e).text)) :
    strtod s = (FloatBody.hexadecimal x ip fr e).value sgn := by
  obtain ⟨hx, hne, hip, hfr, he⟩ := h
  have hex : ∀ c ∈ (exponentText e).head?, isxdigit c = false ∧ c ≠ '.' := by
    intro c hc
    rcases head_exponentText 'p' 'P' e he c hc with rfl | rfl <;> decide
  have hsuf : ∀ c ∈ (fractionText fr ++ exponentText e).head?, isxdigit c = false :=
    head_fractionText_append fr _ (by decide) (fun c hc => (hex c hc).1)
  have hlx : lower x = 'x' := by
    rcases hx with rfl | rfl <;> decide
  have hi : hasPrefixCI ['i', 'n', 'f']
      ('0' :: x :: (ip ++ (fractionText fr ++ exponentText e))) = false :=
    hasPrefixCI_of_head _ _ _ (by simp; decide)
  have hn : hasPrefixCI ['n', 'a', 'n']
      ('0' :: x :: (ip ++ (fractionText fr ++ exponentText e))) = false :=
    hasPrefixCI_of_head _ _ _ (by simp; decide)
  have hne1 : ¬ (ip = [] ∧ fractionDigits fr = []) := by
    rintro ⟨h1, h2⟩
    rcases hne with h | h
    · exact h h1
    · exact h h2
  have hl : hexLiteral ('0' :: x :: (ip ++ (fractionText fr ++ exponentText e))) =
      some (ip, fractionDigits fr, exponentText e) := by
    simp only [hexLiteral, hlx, and_self, if_true,
      takeWhile_append_stop isxdigit ip _ hip hsuf, dropWhile_append_stop isxdigit ip _ hip hsuf,
      fractionPart_fractionText isxdigit fr _ hfr hex, hne1, if_false]
  unfold strtod
  rw [hs]
  simp only [FloatBody.text, FloatBody.value, hi, hn, hl, Bool.false_eq_true, if_false,
    exponentPart_exponentText 'p' 'P' 'p' e (by decide) (by decide) he,
    hexDigitsValue_eq_hexValue]

theorem strtod_infinity (s : List Char) (sgn : Bool) (w : List Char)
    (h : (FloatBody.infinity w).WellFormed)
    (hs : takeSign (s.dropWhile isspace) = (sgn, (FloatBody.infinity w).text)) :
    strtod s = (FloatBody.infinity w).value sgn := by
  have hi : hasPrefixCI ['i', 'n', 'f'] w = true := by
    rw [hasPrefixCI_eq]
    rcases h with h | h <;> rw [h] <;> decide
  unfold strtod
  rw [hs]
  simp only [FloatBody.text, FloatBody.value, hi, if_true]

theorem strtod_nan (s : List Char) (sgn : Bool) (w : List Char)
    (h : (FloatBody.nan w).WellFormed)
    (hs : takeSign (s.dropWhile isspace) = (sgn, (FloatBody.nan w).text)) :
    strtod s = (FloatBody.nan w).value sgn := by
  have h1 : w.map Char.toLower = ['n', 'a', 'n'] := h
  have hi : hasPrefixCI ['i', 'n', 'f'] w = false := by
    rw [hasPrefixCI_eq, h1]
    decide
  have hn : hasPrefixCI ['n', 'a', 'n'] w = true := by
    rw [hasPrefixCI_eq, h1]
    decide
  unfold strtod
  rw [hs]
  simp only [FloatBody.text, FloatBody.value, hi, hn, Bool.false_eq_true, if_false, if_true]

theorem strtod_body (s : List Char) (sgn : Bool) (b : FloatBody) (h : b.WellFormed)
    (hs : takeSign (s.dropWhile isspace) = (sgn, b.text)) : strtod s = b.value sgn := by
  cases b with
  | decimal ip fr e => exact strtod_decimal s sgn ip fr e h hs
  | hexadecimal x ip fr e => exact strtod_hexadecimal s sgn x ip fr e h hs
  | infinity w => exact strtod_infinity s sgn w h hs
  | nan w => exact strtod_nan s sgn w h hs

/-- The head of a well-formed floating literal is neither white space nor a sign. -/
theorem head_FloatBody (b : FloatBody) (h : b.WellFormed) :
    ∀ c ∈ b.text.head?, isspace c = false ∧ c ≠ '-' ∧ c ≠ '+' := by
  cases b with
  | decimal ip fr e =>
    obtain ⟨_, hip, _, he⟩ := h
    have hex : ∀ c ∈ (exponentText e).head?, isspace c = false ∧ c ≠ '-' ∧ c ≠ '+' := by
      intro c hc
      rcases head_exponentText 'e' 'E' e he c hc with rfl | rfl <;> decide
    have hfe : ∀ c ∈ (fractionText fr ++ exponentText e).head?,
        isspace c = false ∧ c ≠ '-' ∧ c ≠ '+' :=
      @head_fractionText_append fr _ (fun c => isspace c = false ∧ c ≠ '-' ∧ c ≠ '+')
        (by decide) hex
    exact @head?_append_of_head (fun c => isspace c = false ∧ c ≠ '-' ∧ c ≠ '+') ip _
      (head_digit_ok hip) hfe
  | hexadecimal x ip fr e =>
    intro c hc
    simp only [FloatBody.text, List.head?_cons, Option.mem_def, Option.some.injEq] at hc
    subst hc
    decide
  | infinity w =>
    intro c hc
    have hw : FloatBody.text (FloatBody.infinity w) = w := rfl
    rw [hw] at hc
    have h1 : ∀ l ∈ (w.map Char.toLower), 97 ≤ l.toNat ∧ l.toNat ≤ 122 := by
      rcases h with h | h <;> rw [h] <;> decide
    have h2 := toNat_of_toLower_letter
      (h1 _ (List.mem_map_of_mem _ (List.mem_of_mem_head? hc)))
    refine ⟨?_, ?_, ?_⟩
    · cases hsp : isspace c with
      | false => rfl
      | true =>
        rw [isspace_iff] at hsp
        omega
    · rintro rfl
      revert h2
      decide
    · rintro rfl
      revert h2
      decide
  | nan w =>
    intro c hc
    have hw : FloatBody.text (FloatBody.nan w) = w := rfl
    rw [hw] at hc
    have h0 : w.map Char.toLower = ['n', 'a', 'n'] := h
    have h1 : ∀ l ∈ (w.map Char.toLower), 97 ≤ l.toNat ∧ l.toNat ≤ 122 := by
      rw [h0]
      decide
    have h2 := toNat_of_toLower_letter
      (h1 _ (List.mem_map_of_mem _ (List.mem_of_mem_head? hc)))
    refine ⟨?_, ?_, ?_⟩
    · cases hsp : isspace c with
      | false => rfl
      | true =>
        rw [isspace_iff] at hsp
        omega
    · rintro rfl
      revert h2
      decide
    · rintro rfl
      revert h2
      decide

theorem FromString_double_get_field (f : FloatField) (h : f.WellFormed) :
    FromString_double.get f.text = f.value := by
  have hcs := c_str_of_no_nul f.text (fun c hc => (safeChar_FloatField f h c hc).2.2)
  obtain ⟨hws, hb⟩ := h
  unfold FromString_double.get atof FloatField.value
  rw [hcs]
  apply strtod_body _ _ _ hb
  unfold FloatField.text
  exact takeSign_dropWhile_field f.space f.sign f.body.text hws (head_FloatBody f.body hb)

/-! ## The tokenizer on plain fields -/

theorem scanField_cons_plain (q : Bool) (c : Char) (rest tok : List Char) (h : plainChar c) :
    scanField q (c :: rest) tok = scanField q rest (tok ++ [c]) := by
  obtain ⟨h1, h2, h3⟩ := h
  rw [scanField.eq_def]
  simp only [h1, h2, h3, if_false]

theorem scanField_plain (q : Bool) (w rest tok : List Char) (hw : ∀ c ∈ w, plainChar c) :
    scanField q (w ++ rest) tok = scanField q rest (tok ++ w) := by
  induction w generalizing tok with
  | nil => simp
  | cons c w ih =>
    have hw1 : ∀ c ∈ w, plainChar c := fun x hx => hw x (by simp [hx])
    rw [List.cons_append, scanField_cons_plain _ _ _ _ (hw c (by simp)), ih _ hw1]
    simp

theorem scanField_sep (tok rest : List Char) :
    scanField false (sepChar :: rest) tok = ((rest, tok, true), none) := by
  have h : sepChar ≠ escapeChar := by decide
  rw [scanField.eq_def]
  simp [h]

theorem token_iterator_call_field (l v : Bool) (t a b : List Char) (ha : ∀ c ∈ a, plainChar c) :
    token_iterator.call { last_ := l, begin_ := a ++ sepChar :: b, valid_ := v, tok_ := t } =
      ({ last_ := true, begin_ := b, valid_ := v, tok_ := a }, Except.ok true) := by
  have hs : scanField false (a ++ sepChar :: b) [] = ((b, a, true), none) := by
    rw [scanField_plain _ _ _ _ ha, scanField_sep]
    simp
  unfold token_iterator.call
  cases hab : a ++ sepChar :: b with
  | nil => simp at hab
  | cons c rest =>
    rw [hab] at hs
    simp [hs]

theorem token_iterator_call_last_field (v : Bool) (t b : List Char)
    (hb : ∀ c ∈ b, plainChar c) :
    token_iterator.call { last_ := true, begin_ := b, valid_ := v, tok_ := t } =
      ({ last_ := false, begin_ := [], valid_ := v, tok_ := b }, Except.ok true) := by
  cases b with
  | nil => simp [token_iterator.call]
  | cons c rest =>
    have hs : scanField false (c :: rest) [] = (([], c :: rest, false), none) := by
      have := scanField_plain false (c :: rest) [] [] hb
      simpa [scanField] using this
    simp [token_iterator.call, hs]

theorem token_iterator_call_end (v : Bool) (t : List Char) :
    token_iterator.call { last_ := false, begin_ := [], valid_ := v, tok_ := t } =
      ({ last_ := false, begin_ := [], valid_ := v, tok_ := [] }, Except.ok false) := by
  simp [token_iterator.call]

theorem token_iterator_begin_field (a b : List Char) (ha : ∀ c ∈ a, plainChar c) :
    token_iterator.begin (a ++ sepChar :: b) =
      Except.ok { last_ := true, begin_ := b, valid_ := true, tok_ := a } := by
  unfold token_iterator.begin
  cases hab : a ++ sepChar :: b with
  | nil => simp at hab
  | cons c rest =>
    simp only
    rw [← hab, token_iterator_call_field _ _ _ _ _ ha]

/-- The member `DataReader::set` on a line of two plain fields: the Integer column receives
the conversion of the first at row `i`, the Double column that of the second,
and no failure occurs. -/
theorem DataReader_set_two_fields (NDEBUG : Bool) (r : DataReader) (i : Nat) (a b : List Char)
    (ha : ∀ c ∈ a, plainChar c) (hb : ∀ c ∈ b, plainChar c) (xs : List Int) (ys : List Double)
    (hc : r.ncol = 2)
    (hd : r.data = [VectorInput.IntegerVector xs, VectorInput.DoubleVector ys]) :
    r.set NDEBUG i (a ++ sepChar :: b) =
      ({ r with
          tokenizer := { tokenizer_ := a ++ sepChar :: b, token := b,
                         it := { last_ := false, begin_ := [], valid_ := false, tok_ := [] } },
          data := [VectorInput.IntegerVector (xs.set i (FromString_int.get a)),
                   VectorInput.DoubleVector (ys.set i (FromString_double.get b))] }, none) := by
  simp [DataReader.set, Tokenizer.assign, token_iterator_begin_field a b ha, hc,
    DataReader.setLoop, Tokenizer.get_token, token_iterator.increment,
    token_iterator_call_last_field _ _ _ hb, token_iterator.dereference,
    token_iterator_call_end, DataReader.setCell, hd, VectorInput.set]

/-! ## Reading well-formed files -/

theorem getline_line (line rest old : List Char) (h : ∀ c ∈ line, (c != '\n') = true) :
    getline { buf := line ++ '\n' :: rest, eofbit := false, failbit := false } old =
      ({ buf := rest, eofbit := false, failbit := false }, line) := by
  have h1 : (line ++ '\n' :: rest).takeWhile (fun c => c != '\n') = line := by
    rw [List.takeWhile_append_of_pos h]
    simp
  have h2 : (line ++ '\n' :: rest).dropWhile (fun c => c != '\n') = '\n' :: rest := by
    rw [List.dropWhile_append_of_pos h]
    simp
  simp [getline, h1, h2]

theorem getline_last_line (line old : List Char) (h : ∀ c ∈ line, (c != '\n') = true) :
    getline { buf := line, eofbit := false, failbit := false } old =
      ({ buf := [], eofbit := true, failbit := line.isEmpty }, line) := by
  have h1 : line.takeWhile (fun c => c != '\n') = line := List.takeWhile_eq_self_iff.2 h
  have h2 : line.dropWhile (fun c => c != '\n') = [] := by
    simpa using @List.dropWhile_append_of_pos _ _ line [] h
  simp [getline, h1, h2]

theorem csvLine_no_newline (row : IntField × FloatField)
    (h : row.1.WellFormed ∧ row.2.WellFormed) : ∀ c ∈ csvLine row, (c != '\n') = true := by
  intro c hc
  unfold csvLine at hc
  rcases List.mem_append.1 hc with hc | hc
  · exact (safeChar_IntField _ h.1 c hc).2.1
  · rcases List.mem_cons.1 hc with rfl | hc
    · decide
    · exact (safeChar_FloatField _ h.2 c hc).2.1

theorem getline_csvFile (row : IntField × FloatField) (rest : List (IntField × FloatField))
    (nl : Bool) (old : List Char) (h : row.1.WellFormed ∧ row.2.WellFormed) :
    ∃ file1, getline { buf := csvFile (row :: rest) nl, eofbit := false, failbit := false } old =
        (file1, csvLine row) ∧
      (rest ≠ [] → file1 = { buf := csvFile rest nl, eofbit := false, failbit := false }) := by
  have hn := csvLine_no_newline row h
  cases rest with
  | nil =>
    cases nl with
    | false =>
      refine ⟨{ buf := [], eofbit := true, failbit := (csvLine row).isEmpty }, ?_,
        fun hne => absurd rfl hne⟩
      simp only [csvFile, Bool.false_eq_true, if_false, List.append_nil]
      exact getline_last_line _ _ hn
    | true =>
      refine ⟨{ buf := [], eofbit := false, failbit := false }, ?_, fun hne => absurd rfl hne⟩
      simp only [csvFile, if_true]
      exact getline_line _ _ _ hn
  | cons r2 rest1 =>
    refine ⟨{ buf := csvFile (r2 :: rest1) nl, eofbit := false, failbit := false }, ?_,
      fun _ => rfl⟩
    rw [csvFile]
    exact getline_line _ _ _ hn

theorem DataReader_set_csvLine (NDEBUG : Bool) (r : DataReader) (i : Nat)
    (row : IntField × FloatField) (h : row.1.WellFormed ∧ row.2.WellFormed)
    (xs : List Int) (ys : List Double) (hc : r.ncol = 2)
    (hd : r.data = [VectorInput.IntegerVector xs, VectorInput.DoubleVector ys]) :
    ∃ t, r.set NDEBUG i (csvLine row) =
      ({ r with
          tokenizer := t,
          data := [VectorInput.IntegerVector (xs.set i row.1.value),
                   VectorInput.DoubleVector (ys.set i row.2.value)] }, none) := by
  have ha : ∀ c ∈ row.1.text, plainChar c :=
    fun c hc => (safeChar_IntField _ h.1 c hc).1
  have hb : ∀ c ∈ row.2.text, plainChar c :=
    fun c hc => (safeChar_FloatField _ h.2 c hc).1
  have := DataReader_set_two_fields NDEBUG r i row.1.text row.2.text ha hb xs ys hc hd
  rw [FromString_int_get_field _ h.1, FromString_double_get_field _ h.2] at this
  exact ⟨_, this⟩

/-- The loop of `read_file` over the lines of well-formed rows, from row `i`: the
rows `i, i+1, ...` of the two columns receive the values of the fields in
line order, the other rows keep their value, and no failure occurs. -/
theorem DataReader_readLoop_csvFile (NDEBUG : Bool) (nl : Bool)
    (rows : List (IntField × FloatField))
    (hwf : ∀ row ∈ rows, row.1.WellFormed ∧ row.2.WellFormed)
    (i : Nat) (file : ifstream) (old : List Char) (r : DataReader)
    (xs : List Int) (ys : List Double)
    (hfile : rows ≠ [] → file = { buf := csvFile rows nl, eofbit := false, failbit := false })
    (hc : r.ncol = 2)
    (hd : r.data = [VectorInput.IntegerVector xs, VectorInput.DoubleVector ys])
    (hx : i + rows.length ≤ xs.length) (hy : i + rows.length ≤ ys.length) :
    ∃ t, DataReader.readLoop NDEBUG rows.length i file old r =
      ({ r with
          tokenizer := t,
          data := [VectorInput.IntegerVector
                     (xs.take i ++ rows.map (fun row => row.1.value) ++ xs.drop (i + rows.length)),
                   VectorInput.DoubleVector
                     (ys.take i ++ rows.map (fun row => row.2.value) ++ ys.drop (i + rows.length))] },
        none) := by
  induction rows generalizing i file old r xs ys with
  | nil =>
    refine ⟨r.tokenizer, ?_⟩
    cases r
    simp only at hd
    subst hd
    simp [DataReader.readLoop]
  | cons row rest ih =>
    have hrow := hwf row (by simp)
    have hrest : ∀ row ∈ rest, row.1.WellFormed ∧ row.2.WellFormed :=
      fun x hx => hwf x (by simp [hx])
    rw [hfile (by simp)]
    obtain ⟨file1, hg, hfile1⟩ := getline_csvFile row rest nl old hrow
    obtain ⟨t1, hset⟩ := DataReader_set_csvLine NDEBUG r i row hrow xs ys hc hd
    simp only [List.length_cons] at hx hy
    obtain ⟨t, hloop⟩ := ih hrest (i + 1) file1 (csvLine row)
      { r with tokenizer := t1,
               data := [VectorInput.IntegerVector (xs.set i row.1.value),
                        VectorInput.DoubleVector (ys.set i row.2.value)] }
      (xs.set i row.1.value) (ys.set i row.2.value) hfile1 hc rfl
      (by simp; omega) (by simp; omega)
    refine ⟨t, ?_⟩
    simp only [List.length_cons, DataReader.readLoop, hg, hset, hloop]
    have e1 : i + 1 + rest.length = i + (rest.length + 1) := by omega
    rw [take_succ_set xs i _ (by omega), take_succ_set ys i _ (by omega),
      drop_set_of_lt xs i _ _ (by omega), drop_set_of_lt ys i _ _ (by omega), e1]
    simp

/-- C1: for every list of `n` well-formed rows and every file consisting of
exactly their `n` lines `<integer>,<float>` (with or without a line feed after
the last), `read_csv` with that `n` returns the 2-column table whose column 0
is the integers and whose column 1 is the floats, in line order.  The integer
field is `[space][+|-]digits` and denotes a number in the range of `int`; the
float field is `[space][+|-]` followed by a decimal literal
`digits[.digits][e[+|-]digits]` or `.digits[e[+|-]digits]`, a hexadecimal
literal `0x` `hexdigits[.hexdigits][p[+|-]digits]`, or `inf`, `infinity` or
`nan` in any case, and denotes the nearest `double`, an infinity or a NaN. -/
theorem read_csv_well_formed (NDEBUG : Bool) (fs : List Char → Option (List Char))
    (file : List Char) (rows : List (IntField × FloatField)) (finalNewline : Bool)
    (hwf : ∀ row ∈ rows, row.1.WellFormed ∧ row.2.WellFormed)
    (hfs : fs (c_str file) = some (csvFile rows finalNewline)) :
    read_csv NDEBUG fs file rows.length =
      Except.ok [SEXP.INTSXP (rows.map (fun row => row.1.value)),
        SEXP.REALSXP (rows.map (fun row => row.2.value))] := by
  obtain ⟨t, h⟩ := DataReader_readLoop_csvFile NDEBUG finalNewline rows hwf 0
    { buf := csvFile rows finalNewline, eofbit := false, failbit := false } []
    (DataReader.new rows.length) (List.replicate rows.length 0)
    (List.replicate rows.length Double.zero) (fun _ => rfl) rfl rfl (by simp) (by simp)
  have hn : (DataReader.new rows.length).n = rows.length := rfl
  simp only [read_csv, DataReader.read_file, ifstream.open, hfs, hn, h]
  simp [DataReader.get, DataReader.getLoop, DataReader.new, VectorInput.get]

/-- The statement of C1 at the six lines `1,1.5`, ` +7,1e5`, `-2,.5`, `3,-0x1.8p1`,
`4,+Infinity`, `5,NaN` with `n = 6`: the columns are 1, 7, -2, 3, 4, 5 and
1.5, 100000.0, 0.5, -3.0, +infinity, NaN. -/
theorem read_csv_well_formed_witness :
    (∀ row ∈ [(IntField.mk [] none ['1'],
                FloatField.mk [] none (FloatBody.decimal ['1'] (some ['5']) none)),
              (IntField.mk [' '] (some false) ['7'],
                FloatField.mk [] none
                  (FloatBody.decimal ['1'] none (some (Exponent.mk 'e' none ['5'])))),
              (IntField.mk [] (some true) ['2'],
                FloatField.mk [] none (FloatBody.decimal [] (some ['5']) none)),
              (IntField.mk [] none ['3'],
                FloatField.mk [] (some true)
                  (FloatBody.hexadecimal 'x' ['1'] (some ['8'])
                    (some (Exponent.mk 'p' none ['1'])))),
              (IntField.mk [] none ['4'],
                FloatField.mk [] (some false) (FloatBody.infinity "Infinity".toList)),
              (IntField.mk [] none ['5'],
                FloatField.mk [] none (FloatBody.nan "NaN".toList))],
        row.1.WellFormed ∧ row.2.WellFormed) ∧
      csvFile [(IntField.mk [] none ['1'],
                FloatField.mk [] none (FloatBody.decimal ['1'] (some ['5']) none)),
              (IntField.mk [' '] (some false) ['7'],
                FloatField.mk [] none
                  (FloatBody.decimal ['1'] none (some (Exponent.mk 'e' none ['5'])))),
              (IntField.mk [] (some true) ['2'],
                FloatField.mk [] none (FloatBody.decimal [] (some ['5']) none)),
              (IntField.mk [] none ['3'],
                FloatField.mk [] (some true)
                  (FloatBody.hexadecimal 'x' ['1'] (some ['8'])
                    (some (Exponent.mk 'p' none ['1'])))),
              (IntField.mk [] none ['4'],
                FloatField.mk [] (some false) (FloatBody.infinity "Infinity".toList)),
              (IntField.mk [] none ['5'],
                FloatField.mk [] none (FloatBody.nan "NaN".toList))]
          false = "1,1.5\n +7,1e5\n-2,.5\n3,-0x1.8p1\n4,+Infinity\n5,NaN".toList ∧
      read_csv true (oneFile "1,1.5\n +7,1e5\n-2,.5\n3,-0x1.8p1\n4,+Infinity\n5,NaN".toList)
          ['f'] 6 =
        Except.ok [SEXP.INTSXP [1, 7, -2, 3, 4, 5],
          SEXP.REALSXP [Double.finite false 1023 (2 ^ 51),
            Double.finite false 1039 (34464 * 2 ^ 36), Double.finite false 1022 0,
            Double.finite true 1024 (2 ^ 51), Double.inf false, Double.nan]] := by
  have hwf : ∀ row ∈ [(IntField.mk [] none ['1'],
                FloatField.mk [] none (FloatBody.decimal ['1'] (some ['5']) none)),
              (IntField.mk [' '] (some false) ['7'],
                FloatField.mk [] none
                  (FloatBody.decimal ['1'] none (some (Exponent.mk 'e' none ['5'])))),
              (IntField.mk [] (some true) ['2'],
                FloatField.mk [] none (FloatBody.decimal [] (some ['5']) none)),
              (IntField.mk [] none ['3'],
                FloatField.mk [] (some true)
                  (FloatBody.hexadecimal 'x' ['1'] (some ['8'])
                    (some (Exponent.mk 'p' none ['1'])))),
              (IntField.mk [] none ['4'],
                FloatField.mk [] (some false) (FloatBody.infinity "Infinity".toList)),
              (IntField.mk [] none ['5'],
                FloatField.mk [] none (FloatBody.nan "NaN".toList))],
        row.1.WellFormed ∧ row.2.WellFormed := by
    decide
  refine ⟨hwf, by decide, ?_⟩
  have h := read_csv_well_formed true
    (oneFile "1,1.5\n +7,1e5\n-2,.5\n3,-0x1.8p1\n4,+Infinity\n5,NaN".toList) ['f'] _ false hwf
    (by decide)
  exact h.trans (by decide)

/-! ## Columns -/

/-- C11: for every `n`, a column of each of the three types freshly constructed
with length `n` and exported before any `set` has length `n` and holds the
default value of its type at every index: 0, 0.0, the empty string. -/
theorem fresh_column_defaults (n : Nat) :
    (∃ xs, (VectorInput_Integer n).get.1 = SEXP.INTSXP xs ∧ xs.length = n ∧
      ∀ i, i < n → xs[i]? = some 0) ∧
    (∃ ys, (VectorInput_Double n).get.1 = SEXP.REALSXP ys ∧ ys.length = n ∧
      ∀ i, i < n → ys[i]? = some Double.zero) ∧
    (∃ zs, (VectorInput_String n).get.1 = SEXP.STRSXP zs ∧ zs.length = n ∧
      ∀ i, i < n → zs[i]? = some []) := by
  refine ⟨⟨_, rfl, by simp, ?_⟩, ⟨_, rfl, by simp, ?_⟩, ⟨_, rfl, by simp, ?_⟩⟩ <;>
    (intro i hi; simp [List.getElem?_replicate, hi])

/-- The statement of C11 at `n = 2`, row 1. -/
theorem fresh_column_defaults_witness :
    (VectorInput_Integer 2).get.1 = SEXP.INTSXP [0, 0] ∧
      (VectorInput_Double 2).get.1 = SEXP.REALSXP [Double.zero, Double.zero] ∧
      (VectorInput_String 2).get.1 = SEXP.STRSXP [[], []] ∧
      (∃ xs, (VectorInput_Integer 2).get.1 = SEXP.INTSXP xs ∧ xs.length = 2 ∧
        ∀ i, i < 2 → xs[i]? = some 0) :=
  ⟨by decide, by decide, by decide, (fresh_column_defaults 2).1⟩

theorem list_set_frame {α : Type} (xs : List α) (i : Nat) (a : α) (h : i < xs.length) :
    (xs.set i a).length = xs.length ∧ (xs.set i a)[i]? = some a ∧
      ∀ j, j ≠ i → (xs.set i a)[j]? = xs[j]? := by
  refine ⟨by simp, by simp [h], fun j hj => ?_⟩
  simp [List.getElem?_set, Ne.symm hj]

/-- C12: for every column of each of the three types, every index `i` below its
length and every token `s`, after `set(i, s)` the exported column has the
same length, holds the conversion of `s` at index `i`, and holds at every
other index what it held before. -/
theorem set_frame (i : Nat) (s : List Char) :
    (∀ xs : List Int, i < xs.length →
      ∃ out, ((VectorInput.IntegerVector xs).set i s).get.1 = SEXP.INTSXP out ∧
        out.length = xs.length ∧ out[i]? = some (FromString_int.get s) ∧
        ∀ j, j ≠ i → out[j]? = xs[j]?) ∧
    (∀ ys : List Double, i < ys.length →
      ∃ out, ((VectorInput.DoubleVector ys).set i s).get.1 = SEXP.REALSXP out ∧
        out.length = ys.length ∧ out[i]? = some (FromString_double.get s) ∧
        ∀ j, j ≠ i → out[j]? = ys[j]?) ∧
    (∀ zs : List (List Char), i < zs.length →
      ∃ out, ((VectorInput.CharacterVector zs).set i s).get.1 = SEXP.STRSXP out ∧
        out.length = zs.length ∧ out[i]? = some (FromString_String.get s) ∧
        ∀ j, j ≠ i → out[j]? = zs[j]?) :=
  ⟨fun xs h => ⟨_, rfl, list_set_frame xs i _ h⟩, fun ys h => ⟨_, rfl, list_set_frame ys i _ h⟩,
    fun zs h => ⟨_, rfl, list_set_frame zs i _ h⟩⟩

/-- The statement of C12 at the Integer column 7, 8, 9, index 1 and the token `42xyz`. -/
theorem set_frame_witness :
    1 < ([7, 8, 9] : List Int).length ∧
      ((VectorInput.IntegerVector [7, 8, 9]).set 1 ['4', '2', 'x', 'y', 'z']).get.1 =
        SEXP.INTSXP [7, 42, 9] ∧
      (∃ out, ((VectorInput.IntegerVector [7, 8, 9]).set 1 ['4', '2', 'x', 'y', 'z']).get.1 =
          SEXP.INTSXP out ∧
        out.length = ([7, 8, 9] : List Int).length ∧
        out[1]? = some (FromString_int.get ['4', '2', 'x', 'y', 'z']) ∧
        ∀ j, j ≠ 1 → out[j]? = ([7, 8, 9] : List Int)[j]?) :=
  ⟨by decide, by decide, (set_frame 1 ['4', '2', 'x', 'y', 'z']).1 [7, 8, 9] (by decide)⟩

/-- C13: Text conversion is the identity: for every token `s`, empty or with
white space at either end included, `FromString<String>::get(s)` is `s`. -/
theorem FromString_String_get_identity (s : List Char) : FromString_String.get s = s :=
  rfl

/-! ## Integer conversion with white space and sign -/

theorem isspace_not_nul {c : Char} (h : isspace c = true) : (c != nulChar) = true := by
  have : c ≠ nulChar := by
    rintro rfl
    revert h
    decide
  simpa using this

theorem strtol_plus_digits (ds suf : List Char) (hds : ∀ c ∈ ds, isdigit c = true)
    (hsuf : ∀ c ∈ suf.head?, isdigit c = false) :
    strtol ('+' :: (ds ++ suf)) = min ((decValue ds : Nat) : Int) LONG_MAX := by
  have h1 : ('+' :: (ds ++ suf)).dropWhile isspace = '+' :: (ds ++ suf) := by
    have : isspace '+' = false := by decide
    simp [this]
  have h2 : ¬ ('+' = '-') := by decide
  unfold strtol
  rw [h1]
  simp [takeSign, takeWhile_isdigit_append _ _ hds hsuf, h2]

/-- C19: for every token made of white space, then `+`, `-` or nothing, then a
non-empty run of decimal digits `ds`, then a suffix that is empty or starts
with a non-digit, such that the signed value fits in `int`, Integer
conversion returns the number `ds` denotes, negated when the sign is `-`. -/
theorem FromString_int_get_signed (ws sg ds suffix : List Char)
    (hws : ∀ c ∈ ws, isspace c = true)
    (hsg : sg = [] ∨ sg = ['+'] ∨ sg = ['-'])
    (hne : ds ≠ []) (hds : ∀ c ∈ ds, isdigit c = true)
    (hsuf : ∀ c ∈ suffix.head?, isdigit c = false)
    (hlo : INT_MIN ≤ (if sg = ['-'] then -((digitsValue ds : Nat) : Int) else (digitsValue ds : Nat)))
    (hhi : (if sg = ['-'] then -((digitsValue ds : Nat) : Int) else (digitsValue ds : Nat)) ≤ INT_MAX) :
    FromString_int.get (ws ++ sg ++ ds ++ suffix) =
      (if sg = ['-'] then -((digitsValue ds : Nat) : Int) else (digitsValue ds : Nat)) := by
  rw [digitsValue_eq_decValue] at hlo hhi ⊢
  obtain ⟨d, ds1, hd1⟩ := List.exists_cons_of_ne_nil hne
  have hdd : isdigit d = true := hds d (by simp [hd1])
  have hsuf1 := head_c_str suffix _ hsuf
  have hcs : c_str (ws ++ sg ++ ds ++ suffix) = ws ++ (sg ++ (ds ++ c_str suffix)) := by
    have hsgn : ∀ c ∈ sg, (c != nulChar) = true := by
      rcases hsg with h | h | h <;> subst h <;> decide
    unfold c_str
    rw [List.append_assoc, List.append_assoc,
      List.takeWhile_append_of_pos (fun c hc => isspace_not_nul (hws c hc)),
      List.takeWhile_append_of_pos hsgn,
      List.takeWhile_append_of_pos (fun c hc => isdigit_not_nul (hds c hc))]
  have hdrop : ∀ rest : List Char, (∀ c ∈ rest.head?, isspace c = false) →
      (ws ++ rest).dropWhile isspace = rest := by
    intro rest hr
    rw [List.dropWhile_append_of_pos hws]
    cases rest with
    | nil => rfl
    | cons a t => simp [hr a (by simp)]
  unfold FromString_int.get atoi
  rw [hcs]
  rcases hsg with h | h | h
  · subst h
    have hm : ¬ (([] : List Char) = ['-']) := by decide
    simp only [hm, if_false, List.nil_append] at hlo hhi ⊢
    have h1 : (ws ++ (ds ++ c_str suffix)).dropWhile isspace = ds ++ c_str suffix :=
      hdrop _ (by simp [hd1, isdigit_not_space hdd])
    have h2 := strtol_digits ds (c_str suffix) hne hds hsuf1
    unfold strtol at h2 ⊢
    rw [h1]
    have h3 : (ds ++ c_str suffix).dropWhile isspace = ds ++ c_str suffix := by
      simp [hd1, isdigit_not_space hdd]
    rw [h3] at h2
    rw [h2]
    have hmin : min ((decValue ds : Nat) : Int) LONG_MAX = ((decValue ds : Nat) : Int) := by
      apply min_eq_left
      simp only [INT_MAX, LONG_MAX] at *
      omega
    rw [hmin]
    exact toInt32_of_range _ hlo hhi
  · subst h
    have hm : ¬ ((['+'] : List Char) = ['-']) := by decide
    simp only [hm, if_false] at hlo hhi ⊢
    have h1 : (ws ++ (['+'] ++ (ds ++ c_str suffix))).dropWhile isspace =
        '+' :: (ds ++ c_str suffix) := by
      have := hdrop ('+' :: (ds ++ c_str suffix)) (by simp; decide)
      simpa using this
    have h2 := strtol_plus_digits ds (c_str suffix) hds hsuf1
    unfold strtol at h2 ⊢
    rw [h1]
    have h3 : ('+' :: (ds ++ c_str suffix)).dropWhile isspace = '+' :: (ds ++ c_str suffix) := by
      have : isspace '+' = false := by decide
      simp [this]
    rw [h3] at h2
    rw [h2]
    have hmin : min ((decValue ds : Nat) : Int) LONG_MAX = ((decValue ds : Nat) : Int) := by
      apply min_eq_left
      simp only [INT_MAX, LONG_MAX] at *
      omega
    rw [hmin]
    exact toInt32_of_range _ hlo hhi
  · subst h
    simp only [if_true] at hlo hhi ⊢
    have h1 : (ws ++ (['-'] ++ (ds ++ c_str suffix))).dropWhile isspace =
        '-' :: (ds ++ c_str suffix) := by
      have := hdrop ('-' :: (ds ++ c_str suffix)) (by simp; decide)
      simpa using this
    have h2 := strtol_neg_digits ds (c_str suffix) hds hsuf1
    unfold strtol at h2 ⊢
    rw [h1]
    have h3 : ('-' :: (ds ++ c_str suffix)).dropWhile isspace = '-' :: (ds ++ c_str suffix) := by
      have : isspace '-' = false := by decide
      simp [this]
    rw [h3] at h2
    rw [h2]
    have hmax : max (-((decValue ds : Nat) : Int)) LONG_MIN = -((decValue ds : Nat) : Int) := by
      apply max_eq_left
      simp only [INT_MIN, LONG_MIN] at *
      omega
    rw [hmax]
    exact toInt32_of_range _ hlo hhi

/-- The statement of C19 at the token `-42xyz`, which converts to -42. -/
theorem FromString_int_get_signed_witness :
    (∀ c ∈ ([] : List Char), isspace c = true) ∧ (∀ c ∈ ['4', '2'], isdigit c = true) ∧
      (∀ c ∈ ['x', 'y', 'z'].head?, isdigit c = false) ∧
      (if ['-'] = ['-'] then -((digitsValue ['4', '2'] : Nat) : Int)
        else (digitsValue ['4', '2'] : Nat)) = -42 ∧
      FromString_int.get ([] ++ ['-'] ++ ['4', '2'] ++ ['x', 'y', 'z']) =
        (if ['-'] = ['-'] then -((digitsValue ['4', '2'] : Nat) : Int)
          else (digitsValue ['4', '2'] : Nat)) :=
  ⟨by decide, by decide, by decide, by decide,
    FromString_int_get_signed [] ['-'] ['4', '2'] ['x', 'y', 'z'] (by decide)
      (Or.inr (Or.inr rfl)) (by decide) (by decide) (by decide) (by decide) (by decide)⟩

/-- The token of two spaces and `7` converts to 7. -/
theorem FromString_int_get_spaces_seven : FromString_int.get [' ', ' ', '7'] = 7 := by
  decide

/-! ## The token iterator and the fields of a line -/

theorem token_iterator_call_some (last v : Bool) (next t tok next1 : List Char) (last1 : Bool)
    (h : nextField last next = Except.ok (some (tok, last1, next1))) :
    token_iterator.call { last_ := last, begin_ := next, valid_ := v, tok_ := t } =
      ({ last_ := last1, begin_ := next1, valid_ := v, tok_ := tok }, Except.ok true) := by
  unfold nextField at h
  unfold token_iterator.call
  cases next with
  | nil =>
    cases last with
    | false => simp at h
    | true =>
      simp at h
      obtain ⟨h1, h2, h3⟩ := h
      subst h1 h2 h3
      simp
  | cons c rest =>
    simp only at h ⊢
    rcases hs : scanField false (c :: rest) [] with ⟨⟨n, tk, l⟩, e⟩
    rw [hs] at h
    cases e with
    | some e => simp at h
    | none =>
      simp at h
      obtain ⟨h1, h2, h3⟩ := h
      subst h1 h2 h3
      simp

theorem token_iterator_call_none (last v : Bool) (next t : List Char)
    (h : nextField last next = Except.ok none) :
    token_iterator.call { last_ := last, begin_ := next, valid_ := v, tok_ := t } =
      ({ last_ := false, begin_ := [], valid_ := v, tok_ := [] }, Except.ok false) := by
  unfold nextField at h
  unfold token_iterator.call
  cases next with
  | nil =>
    cases last with
    | false => simp
    | true => simp at h
  | cons c rest =>
    simp only at h
    rcases hs : scanField false (c :: rest) [] with ⟨⟨n, tk, l⟩, e⟩
    rw [hs] at h
    cases e <;> simp at h

theorem token_iterator_call_error (last v : Bool) (next t : List Char) (e : Failure)
    (h : nextField last next = Except.error e) :
    (token_iterator.call { last_ := last, begin_ := next, valid_ := v, tok_ := t }).2 =
      Except.error e := by
  unfold nextField at h
  unfold token_iterator.call
  cases next with
  | nil => cases last <;> simp at h
  | cons c rest =>
    simp only at h ⊢
    rcases hs : scanField false (c :: rest) [] with ⟨⟨n, tk, l⟩, e1⟩
    rw [hs] at h
    cases e1 with
    | some e1 =>
      simp at h
      subst h
      simp
    | none => simp at h

theorem Tokenizer_get_token_some (NDEBUG : Bool) (t : Tokenizer) (last : Bool)
    (next tok tok1 next1 : List Char) (last1 : Bool)
    (hit : t.it = { last_ := last, begin_ := next, valid_ := true, tok_ := tok })
    (h : nextField last next = Except.ok (some (tok1, last1, next1))) :
    t.get_token NDEBUG =
      ({ t with it := { last_ := last1, begin_ := next1, valid_ := true, tok_ := tok1 },
                token := tok }, Except.ok tok) := by
  simp [Tokenizer.get_token, token_iterator.increment, token_iterator.dereference, hit,
    token_iterator_call_some _ _ _ _ _ _ _ h]

theorem Tokenizer_get_token_none (NDEBUG : Bool) (t : Tokenizer) (last : Bool)
    (next tok : List Char)
    (hit : t.it = { last_ := last, begin_ := next, valid_ := true, tok_ := tok })
    (h : nextField last next = Except.ok none) :
    t.get_token NDEBUG =
      ({ t with it := { last_ := false, begin_ := [], valid_ := false, tok_ := [] },
                token := tok }, Except.ok tok) := by
  simp [Tokenizer.get_token, token_iterator.increment, token_iterator.dereference, hit,
    token_iterator_call_none _ _ _ _ h]

theorem Tokenizer_get_token_error (NDEBUG : Bool) (t : Tokenizer) (last : Bool)
    (next tok : List Char) (e : Failure)
    (hit : t.it = { last_ := last, begin_ := next, valid_ := true, tok_ := tok })
    (h : nextField last next = Except.error e) :
    (t.get_token NDEBUG).2 = Except.error e := by
  have hc := token_iterator_call_error last true next tok e h
  rcases hcall : token_iterator.call
    { last_ := last, begin_ := next, valid_ := true, tok_ := tok } with ⟨it1, res⟩
  rw [hcall] at hc
  simp only at hc
  subst hc
  simp [Tokenizer.get_token, token_iterator.increment, hit, hcall]

/-- From a valid iterator whose current token is `tok`, `k` calls of `get_token`
return `tok` and the fields that follow it, provided the `k` fields after
`tok` are read without error and at least `k - 1` of them exist. -/
theorem Tokenizer_get_tokens_from (NDEBUG : Bool) (k : Nat) (t : Tokenizer) (last : Bool)
    (next tok : List Char) (toks : List (List Char))
    (hit : t.it = { last_ := last, begin_ := next, valid_ := true, tok_ := tok })
    (hf : firstFields k last next = Except.ok toks) (hk : k ≤ toks.length + 1) :
    (t.get_tokens NDEBUG k).2 = Except.ok ((tok :: toks).take k) := by
  induction k generalizing t last next tok toks with
  | zero => simp [Tokenizer.get_tokens]
  | succ k ih =>
    rw [firstFields] at hf
    rcases hn : nextField last next with e | _ | ⟨tok1, last1, next1⟩
    · rw [hn] at hf
      simp at hf
    · rw [hn] at hf
      simp only [Except.ok.injEq] at hf
      subst hf
      have hk0 : k = 0 := by simpa using hk
      subst hk0
      simp [Tokenizer.get_tokens, Tokenizer_get_token_none NDEBUG t last next tok hit hn]
    · rw [hn] at hf
      simp only at hf
      rcases hr : firstFields k last1 next1 with e | toks1
      · rw [hr] at hf
        simp at hf
      · rw [hr] at hf
        simp only [Except.ok.injEq] at hf
        subst hf
        have hk1 : k ≤ toks1.length + 1 := by simpa using hk
        have := ih
          { t with it := { last_ := last1, begin_ := next1, valid_ := true, tok_ := tok1 },
                   token := tok } last1 next1 tok1 toks1 rfl hr hk1
        rw [Tokenizer.get_tokens,
          Tokenizer_get_token_some NDEBUG t last next tok tok1 next1 last1 hit hn]
        simp only
        rcases hg : Tokenizer.get_tokens NDEBUG k
          { t with it := { last_ := last1, begin_ := next1, valid_ := true, tok_ := tok1 },
                   token := tok } with ⟨t2, res⟩
        rw [hg] at this
        simp only at this
        subst this
        simp

theorem nextField_false_some_ne_nil (line tok next1 : List Char) (last1 : Bool)
    (h : nextField false line = Except.ok (some (tok, last1, next1))) : line ≠ [] := by
  rintro rfl
  simp [nextField] at h

theorem nextField_false_none (line : List Char) (h : nextField false line = Except.ok none) :
    line = [] := by
  cases line with
  | nil => rfl
  | cons c rest =>
    unfold nextField at h
    simp only at h
    rcases hs : scanField false (c :: rest) [] with ⟨r, e⟩
    rw [hs] at h
    cases e <;> simp at h

theorem Tokenizer_assign_some (t0 : Tokenizer) (line tok next1 : List Char) (last1 : Bool)
    (h : nextField false line = Except.ok (some (tok, last1, next1))) :
    t0.assign line =
      ({ t0 with tokenizer_ := line,
                 it := { last_ := last1, begin_ := next1, valid_ := true, tok_ := tok } },
        none) := by
  have hne := nextField_false_some_ne_nil line tok next1 last1 h
  unfold Tokenizer.assign token_iterator.begin
  cases line with
  | nil => exact absurd rfl hne
  | cons c rest =>
    simp [token_iterator_call_some false false (c :: rest) [] tok next1 last1 h]

theorem Tokenizer_assign_nil (t0 : Tokenizer) :
    t0.assign [] =
      ({ t0 with tokenizer_ := [],
                 it := { last_ := false, begin_ := [], valid_ := false, tok_ := [] } },
        none) := by
  simp [Tokenizer.assign, token_iterator.begin]

theorem Tokenizer_assign_error (t0 : Tokenizer) (line : List Char) (e : Failure)
    (h : nextField false line = Except.error e) :
    t0.assign line = ({ t0 with tokenizer_ := line }, some e) := by
  have hc := token_iterator_call_error false false line [] e h
  unfold Tokenizer.assign token_iterator.begin
  cases line with
  | nil => simp [nextField] at h
  | cons c rest =>
    rcases hcall : token_iterator.call
      { last_ := false, begin_ := c :: rest, valid_ := false, tok_ := [] } with ⟨it1, res⟩
    rw [hcall] at hc
    simp only at hc
    subst hc
    simp [hcall]

/-- After `assign(line)`, `k` calls of `get_token` return the first `k` fields of
the line, whatever the tokenizer held before, provided the first `k + 1`
fields are read without error and at least `k` of them exist. -/
theorem Tokenizer_assign_get_tokens (NDEBUG : Bool) (t0 : Tokenizer) (line : List Char)
    (k : Nat) (toks : List (List Char))
    (h : firstFields (k + 1) false line = Except.ok toks) (hk : k ≤ toks.length) :
    ∃ t1, t0.assign line = (t1, none) ∧
      (t1.get_tokens NDEBUG k).2 = Except.ok (toks.take k) := by
  rw [firstFields] at h
  rcases hn : nextField false line with e | _ | ⟨tok, last1, next1⟩
  · rw [hn] at h
    simp at h
  · rw [hn] at h
    simp only [Except.ok.injEq] at h
    subst h
    have hk0 : k = 0 := by simpa using hk
    subst hk0
    have hl := nextField_false_none line hn
    subst hl
    exact ⟨_, Tokenizer_assign_nil t0, rfl⟩
  · rw [hn] at h
    simp only at h
    rcases hr : firstFields k last1 next1 with e | toks1
    · rw [hr] at h
      simp at h
    · rw [hr] at h
      simp only [Except.ok.injEq] at h
      subst h
      refine ⟨_, Tokenizer_assign_some t0 line tok next1 last1 hn, ?_⟩
      exact Tokenizer_get_tokens_from NDEBUG k _ last1 next1 tok toks1 rfl hr (by simpa using hk)

/-! ## Lines without quote or escape -/

theorem firstFields_false_nil (k : Nat) : firstFields k false [] = Except.ok [] := by
  cases k with
  | zero => rfl
  | succ k => simp [firstFields, nextField]

theorem nextField_plain_last (last : Bool) (c : Char) (f : List Char)
    (h : ∀ x ∈ c :: f, plainChar x) :
    nextField last (c :: f) = Except.ok (some (c :: f, false, [])) := by
  have hs : scanField false (c :: f) [] = (([], c :: f, false), none) := by
    have := scanField_plain false (c :: f) [] [] h
    rw [List.append_nil, List.nil_append] at this
    rw [this, scanField.eq_def]
  simp [nextField, hs]

theorem nextField_plain_sep (last : Bool) (f rest : List Char) (h : ∀ x ∈ f, plainChar x) :
    nextField last (f ++ ',' :: rest) = Except.ok (some (f, true, rest)) := by
  have hs : scanField false (f ++ sepChar :: rest) [] = ((rest, f, true), none) := by
    rw [scanField_plain _ _ _ _ h, scanField_sep]
    simp
  have hsep : sepChar = ',' := rfl
  rw [hsep] at hs
  unfold nextField
  cases hfr : f ++ ',' :: rest with
  | nil => simp at hfr
  | cons c u =>
    rw [hfr] at hs
    simp [hs]

/-- The fields the escaped-list rule reads from a line of comma-separated fields
without quote or escape are those fields. -/
theorem firstFields_joinFields (k : Nat) (fs : List (List Char)) (hne : fs ≠ [])
    (hplain : ∀ f ∈ fs, ∀ c ∈ f, plainChar c) :
    firstFields k true (joinFields fs) = Except.ok (fs.take k) := by
  induction k generalizing fs with
  | zero => rfl
  | succ k ih =>
    obtain ⟨f, rest, rfl⟩ := List.exists_cons_of_ne_nil hne
    have hf : ∀ c ∈ f, plainChar c := hplain f (by simp)
    cases rest with
    | nil =>
      cases f with
      | nil => simp [joinFields, firstFields, nextField, firstFields_false_nil]
      | cons c f1 =>
        simp [joinFields, firstFields, nextField_plain_last true c f1 hf, firstFields_false_nil]
    | cons g rest1 =>
      have hrest : ∀ f ∈ g :: rest1, ∀ c ∈ f, plainChar c :=
        fun x hx => hplain x (by simp [List.mem_cons] at hx ⊢; exact Or.inr hx)
      rw [joinFields, firstFields, nextField_plain_sep true f _ hf]
      simp only
      rw [ih (g :: rest1) (by simp) hrest]
      simp

theorem firstFields_of_ne_nil (k : Nat) (line : List Char) (h : line ≠ []) :
    firstFields k false line = firstFields k true line := by
  cases k with
  | zero => rfl
  | succ k =>
    obtain ⟨c, rest, rfl⟩ := List.exists_cons_of_ne_nil h
    rw [firstFields, firstFields]
    rfl

theorem joinFields_eq_nil (fs : List (List Char)) (hne : fs ≠ []) (h : joinFields fs = []) :
    fs = [[]] := by
  obtain ⟨f, rest, rfl⟩ := List.exists_cons_of_ne_nil hne
  cases rest with
  | nil =>
    simp only [joinFields] at h
    rw [h]
  | cons g rest1 =>
    rw [joinFields] at h
    simp at h

/-- C14, as stated, fails for the empty line when assertions are on: the line has
one comma-separated field, the empty one, but the tokenizer presents no token
for it, and the first `get_token()` fails the assertion `valid_`. -/
theorem get_token_empty_line_assert :
    joinFields [[]] = [] ∧ (Tokenizer.new.assign (joinFields [[]])).2 = none ∧
      ((Tokenizer.new.assign (joinFields [[]])).1.get_tokens false 1).2 =
        Except.error (Failure.assertion_failed "valid_") := by
  decide

/-- C14, amended: for every line without quote or escape made of `m ≥ 1` fields
separated by commas, the line being non-empty or the assertions compiled
out, `assign(line)` does not fail and the first `k ≤ m` calls of `get_token()`
return the first `k` fields in order, whatever the tokenizer held before
(an earlier line, any number of tokens taken from it). -/
theorem assign_get_tokens_plain (NDEBUG : Bool) (t0 : Tokenizer) (fs : List (List Char))
    (k : Nat) (hne : fs ≠ []) (hplain : ∀ f ∈ fs, ∀ c ∈ f, plainChar c) (hk : k ≤ fs.length)
    (hline : NDEBUG = true ∨ joinFields fs ≠ []) :
    ∃ t1, t0.assign (joinFields fs) = (t1, none) ∧
      (t1.get_tokens NDEBUG k).2 = Except.ok (fs.take k) := by
  by_cases hl : joinFields fs = []
  · have hN : NDEBUG = true := by
      rcases hline with h | h
      · exact h
      · exact absurd hl h
    have hfs := joinFields_eq_nil fs hne hl
    subst hfs hN
    refine ⟨_, Tokenizer_assign_nil t0, ?_⟩
    have hk1 : k = 0 ∨ k = 1 := by
      simp at hk
      omega
    rcases hk1 with rfl | rfl
    · rfl
    · simp [Tokenizer.get_tokens, Tokenizer.get_token, token_iterator.increment,
        token_iterator.call, token_iterator.dereference]
  · have h1 : firstFields (k + 1) false (joinFields fs) = Except.ok (fs.take (k + 1)) := by
      rw [firstFields_of_ne_nil _ _ hl, firstFields_joinFields _ _ hne hplain]
    obtain ⟨t1, ha, hg⟩ := Tokenizer_assign_get_tokens NDEBUG t0 (joinFields fs) k _ h1
      (by simp; omega)
    refine ⟨t1, ha, ?_⟩
    rw [hg, List.take_take]
    simp

/-- The amended C14 at the line `ab,,c` after an earlier line `x,y` of which one
token was taken: two calls return `ab` and the empty field. -/
theorem assign_get_tokens_plain_witness :
    [['a', 'b'], [], ['c']] ≠ ([] : List (List Char)) ∧
      (∀ f ∈ [['a', 'b'], [], ['c']], ∀ c ∈ f, plainChar c) ∧
      joinFields [['a', 'b'], [], ['c']] = "ab,,c".toList ∧
      ∃ t1, ((Tokenizer.new.assign "x,y".toList).1.get_token false).1.assign
          (joinFields [['a', 'b'], [], ['c']]) = (t1, none) ∧
        (t1.get_tokens false 2).2 = Except.ok ([['a', 'b'], [], ['c']].take 2) :=
  ⟨by decide, by decide, by decide,
    assign_get_tokens_plain false ((Tokenizer.new.assign "x,y".toList).1.get_token false).1
      [['a', 'b'], [], ['c']] 2 (by decide) (by decide) (by decide) (Or.inr (by decide))⟩

/-! ## Lines with at least two fields -/

theorem lineFields_some (line f0 f1 : List Char) (h : lineFields line = some (f0, f1)) :
    ∃ last1 next1 last2 next2,
      nextField false line = Except.ok (some (f0, last1, next1)) ∧
      nextField last1 next1 = Except.ok (some (f1, last2, next2)) ∧
      ∃ third, nextField last2 next2 = Except.ok third := by
  unfold lineFields at h
  rw [firstFields] at h
  rcases h0 : nextField false line with e | _ | ⟨a, last1, next1⟩
  · simp [h0] at h
  · simp [h0] at h
  · rw [h0] at h
    simp only at h
    rw [firstFields] at h
    rcases h1 : nextField last1 next1 with e | _ | ⟨b, last2, next2⟩
    · simp [h1] at h
    · simp [h1] at h
    · rw [h1] at h
      simp only at h
      rw [firstFields] at h
      rcases h2 : nextField last2 next2 with e | third
      · simp [h2] at h
      · rw [h2] at h
        cases third with
        | none =>
          simp at h
          obtain ⟨ha, hb⟩ := h
          subst ha hb
          exact ⟨_, _, _, _, rfl, h1, none, h2⟩
        | some x =>
          obtain ⟨c, last3, next3⟩ := x
          simp [firstFields] at h
          obtain ⟨ha, hb⟩ := h
          subst ha hb
          exact ⟨_, _, _, _, rfl, h1, _, h2⟩

theorem DataReader_setCell_zero (n c i : Nat) (t : Tokenizer) (chunk : List Char)
    (xs : List Int) (ys : List Double) :
    DataReader.setCell { n := n, data := [VectorInput.IntegerVector xs, VectorInput.DoubleVector ys],
                         ncol := c, tokenizer := t } 0 i chunk =
      { n := n, data := [VectorInput.IntegerVector (xs.set i (FromString_int.get chunk)),
                         VectorInput.DoubleVector ys], ncol := c, tokenizer := t } := by
  simp [DataReader.setCell, VectorInput.set]

theorem DataReader_setCell_one (n c i : Nat) (t : Tokenizer) (chunk : List Char)
    (xs : List Int) (ys : List Double) :
    DataReader.setCell { n := n, data := [VectorInput.IntegerVector xs, VectorInput.DoubleVector ys],
                         ncol := c, tokenizer := t } 1 i chunk =
      { n := n, data := [VectorInput.IntegerVector xs,
                         VectorInput.DoubleVector (ys.set i (FromString_double.get chunk))],
        ncol := c, tokenizer := t } := by
  simp [DataReader.setCell, VectorInput.set]

theorem DataReader_set_lineFields (NDEBUG : Bool) (r : DataReader) (i : Nat)
    (line f0 f1 : List Char) (xs : List Int) (ys : List Double)
    (h : lineFields line = some (f0, f1)) (hc : r.ncol = 2)
    (hd : r.data = [VectorInput.IntegerVector xs, VectorInput.DoubleVector ys]) :
    (∃ t, r.set NDEBUG i line =
      ({ r with
          tokenizer := t,
          data := [VectorInput.IntegerVector (xs.set i (FromString_int.get f0)),
                   VectorInput.DoubleVector (ys.set i (FromString_double.get f1))] }, none)) ∧
      r.setWrites NDEBUG i line = [(0, i), (1, i)] := by
  obtain ⟨last1, next1, last2, next2, h0, h1, third, h2⟩ := lineFields_some line f0 f1 h
  obtain ⟨n, data, ncol, tk⟩ := r
  simp only at hc hd
  subst hc hd
  have hg1 := fun t hit =>
    Tokenizer_get_token_some NDEBUG t last1 next1 f0 f1 next2 last2 hit h1
  cases third with
  | none =>
    have hg2 := fun t hit => Tokenizer_get_token_none NDEBUG t last2 next2 f1 hit h2
    constructor
    · refine ⟨{ tokenizer_ := line, token := f1,
                it := { last_ := false, begin_ := [], valid_ := false, tok_ := [] } }, ?_⟩
      simp only [DataReader.set, Tokenizer_assign_some _ _ _ _ _ h0, DataReader.setLoop]
      rw [hg1 _ rfl]
      simp only [DataReader_setCell_zero]
      rw [hg2 _ rfl]
      simp only [Nat.zero_add, DataReader_setCell_one]
    · simp only [DataReader.setWrites, Tokenizer_assign_some _ _ _ _ _ h0,
        DataReader.setLoopWrites]
      rw [hg1 _ rfl]
      simp only [DataReader_setCell_zero]
      rw [hg2 _ rfl]
  | some x =>
    obtain ⟨f2, last3, next3⟩ := x
    have hg2 := fun t hit =>
      Tokenizer_get_token_some NDEBUG t last2 next2 f1 f2 next3 last3 hit h2
    constructor
    · refine ⟨{ tokenizer_ := line, token := f1,
                it := { last_ := last3, begin_ := next3, valid_ := true, tok_ := f2 } }, ?_⟩
      simp only [DataReader.set, Tokenizer_assign_some _ _ _ _ _ h0, DataReader.setLoop]
      rw [hg1 _ rfl]
      simp only [DataReader_setCell_zero]
      rw [hg2 _ rfl]
      simp only [Nat.zero_add, DataReader_setCell_one]
    · simp only [DataReader.setWrites, Tokenizer_assign_some _ _ _ _ _ h0,
        DataReader.setLoopWrites]
      rw [hg1 _ rfl]
      simp only [DataReader_setCell_zero]
      rw [hg2 _ rfl]

/-! ## Reading the first lines of a file -/

theorem getline_fileOf (l : List Char) (ls : List (List Char)) (tail : Option (List Char))
    (old : List Char) (hl : ∀ c ∈ l, (c != '\n') = true) :
    ∃ file1, getline { buf := fileOf (l :: ls) tail, eofbit := false, failbit := false } old =
        (file1, l) ∧
      (ls ≠ [] → file1 = { buf := fileOf ls tail, eofbit := false, failbit := false }) := by
  cases ls with
  | nil =>
    cases tail with
    | none =>
      exact ⟨{ buf := [], eofbit := true, failbit := l.isEmpty }, getline_last_line _ _ hl,
        fun hne => absurd rfl hne⟩
    | some rest =>
      exact ⟨{ buf := rest, eofbit := false, failbit := false }, getline_line _ _ _ hl,
        fun hne => absurd rfl hne⟩
  | cons l2 ls1 =>
    refine ⟨{ buf := fileOf (l2 :: ls1) tail, eofbit := false, failbit := false }, ?_,
      fun _ => rfl⟩
    rw [fileOf]
    exact getline_line _ _ _ hl

/-- The loop of `read_file` over a file that starts with the given lines sets the
rows from exactly those lines, in order. -/
theorem DataReader_readLoop_fileOf (NDEBUG : Bool) (tail : Option (List Char))
    (lines : List (List Char)) (hl : ∀ l ∈ lines, ∀ c ∈ l, (c != '\n') = true)
    (i : Nat) (file : ifstream) (old : List Char) (r : DataReader)
    (hfile : lines ≠ [] → file = { buf := fileOf lines tail, eofbit := false, failbit := false }) :
    DataReader.readLoop NDEBUG lines.length i file old r = DataReader.setLines NDEBUG lines i r := by
  induction lines generalizing i file old r with
  | nil => rfl
  | cons l ls ih =>
    rw [hfile (by simp)]
    obtain ⟨file1, hg, hfile1⟩ := getline_fileOf l ls tail old (hl l (by simp))
    simp only [List.length_cons, DataReader.readLoop, hg, DataReader.setLines]
    rcases hs : r.set NDEBUG i l with ⟨r1, e⟩
    cases e with
    | some e => rfl
    | none =>
      simp only
      exact ih (fun x hx => hl x (by simp [hx])) (i + 1) file1 l r1 hfile1

theorem DataReader_read_file_fileOf (NDEBUG : Bool) (fs : List Char → Option (List Char))
    (file : List Char) (lines : List (List Char)) (tail : Option (List Char))
    (hl : ∀ l ∈ lines, ∀ c ∈ l, (c != '\n') = true)
    (hfs : fs (c_str file) = some (fileOf lines tail)) :
    (DataReader.new lines.length).read_file NDEBUG fs file =
      DataReader.setLines NDEBUG lines 0 (DataReader.new lines.length) := by
  have hn : (DataReader.new lines.length).n = lines.length := rfl
  simp only [DataReader.read_file, ifstream.open, hfs, hn]
  exact DataReader_readLoop_fileOf NDEBUG tail lines hl 0 _ [] _ (fun _ => rfl)

/-- C17: for every `N` and every two files that both start with the same `N`
lines (each followed by the end of the file or by a line feed and anything),
`read_file` leaves the same reader and ends the same way for both, and
`read_csv` returns the same table for both. -/
theorem read_file_first_lines (NDEBUG : Bool) (fsA fsB : List Char → Option (List Char))
    (fileA fileB : List Char) (lines : List (List Char)) (tailA tailB : Option (List Char))
    (hl : ∀ l ∈ lines, ∀ c ∈ l, (c != '\n') = true)
    (hA : fsA (c_str fileA) = some (fileOf lines tailA))
    (hB : fsB (c_str fileB) = some (fileOf lines tailB)) :
    (DataReader.new lines.length).read_file NDEBUG fsA fileA =
        (DataReader.new lines.length).read_file NDEBUG fsB fileB ∧
      ((DataReader.new lines.length).read_file NDEBUG fsA fileA).1.get.1 =
        ((DataReader.new lines.length).read_file NDEBUG fsB fileB).1.get.1 ∧
      read_csv NDEBUG fsA fileA lines.length = read_csv NDEBUG fsB fileB lines.length := by
  have h : (DataReader.new lines.length).read_file NDEBUG fsA fileA =
      (DataReader.new lines.length).read_file NDEBUG fsB fileB := by
    rw [DataReader_read_file_fileOf NDEBUG fsA fileA lines tailA hl hA,
      DataReader_read_file_fileOf NDEBUG fsB fileB lines tailB hl hB]
  refine ⟨h, by rw [h], ?_⟩
  unfold read_csv
  rw [h]

theorem range_succ_flatMap {β : Type} (n : Nat) (f : Nat → List β) :
    (List.range (n + 1)).flatMap f = f 0 ++ (List.range n).flatMap (fun k => f (k + 1)) := by
  rw [List.range_succ_eq_map, List.flatMap_cons, List.flatMap_map]

/-- The loop of `read_file` over a file that starts with lines of at least two
fields each: no failure occurs, the rows `i, i+1, ...` of the two columns
receive the conversions of the first and second field of each line, and the
cells are written row by row, column 0 then column 1. -/
theorem DataReader_readLoop_valid (NDEBUG : Bool) (tail : Option (List Char))
    (lines : List (List Char))
    (hl : ∀ l ∈ lines, (∀ c ∈ l, (c != '\n') = true) ∧ (lineFields l).isSome = true)
    (i : Nat) (file : ifstream) (old : List Char) (r : DataReader)
    (xs : List Int) (ys : List Double)
    (hfile : lines ≠ [] → file = { buf := fileOf lines tail, eofbit := false, failbit := false })
    (hc : r.ncol = 2)
    (hd : r.data = [VectorInput.IntegerVector xs, VectorInput.DoubleVector ys])
    (hx : i + lines.length ≤ xs.length) (hy : i + lines.length ≤ ys.length) :
    (∃ t, DataReader.readLoop NDEBUG lines.length i file old r =
      ({ r with
          tokenizer := t,
          data := [VectorInput.IntegerVector
                     (xs.take i ++ lines.map lineInt ++ xs.drop (i + lines.length)),
                   VectorInput.DoubleVector
                     (ys.take i ++ lines.map lineDouble ++ ys.drop (i + lines.length))] },
        none)) ∧
      DataReader.readLoopWrites NDEBUG lines.length i file old r =
        (List.range lines.length).flatMap (fun k => [(0, i + k), (1, i + k)]) := by
  induction lines generalizing i file old r xs ys with
  | nil =>
    refine ⟨⟨r.tokenizer, ?_⟩, rfl⟩
    cases r
    simp only at hd
    subst hd
    simp [DataReader.readLoop]
  | cons l ls ih =>
    have hl0 := hl l (by simp)
    have hls : ∀ l ∈ ls, (∀ c ∈ l, (c != '\n') = true) ∧ (lineFields l).isSome = true :=
      fun x hx => hl x (by simp [hx])
    rw [hfile (by simp)]
    obtain ⟨file1, hg, hfile1⟩ := getline_fileOf l ls tail old hl0.1
    obtain ⟨⟨f0, f1⟩, hlf⟩ := Option.isSome_iff_exists.1 hl0.2
    obtain ⟨⟨t1, hset⟩, hw⟩ := DataReader_set_lineFields NDEBUG r i l f0 f1 xs ys hlf hc hd
    have hi0 : lineInt l = FromString_int.get f0 := by simp [lineInt, hlf]
    have hi1 : lineDouble l = FromString_double.get f1 := by simp [lineDouble, hlf]
    simp only [List.length_cons] at hx hy
    obtain ⟨⟨t, hloop⟩, hwl⟩ := ih hls (i + 1) file1 l
      { r with tokenizer := t1,
               data := [VectorInput.IntegerVector (xs.set i (FromString_int.get f0)),
                        VectorInput.DoubleVector (ys.set i (FromString_double.get f1))] }
      (xs.set i (FromString_int.get f0)) (ys.set i (FromString_double.get f1)) hfile1 hc rfl
      (by simp; omega) (by simp; omega)
    constructor
    · refine ⟨t, ?_⟩
      simp only [List.length_cons, DataReader.readLoop, hg, hset, hloop]
      have e1 : i + 1 + ls.length = i + (ls.length + 1) := by omega
      rw [take_succ_set xs i _ (by omega), take_succ_set ys i _ (by omega),
        drop_set_of_lt xs i _ _ (by omega), drop_set_of_lt ys i _ _ (by omega), e1]
      simp [hi0, hi1]
    · simp only [List.length_cons, DataReader.readLoopWrites, hg, hset, hw, hwl]
      rw [range_succ_flatMap]
      simp only [Nat.add_zero, List.cons_append, List.nil_append, List.cons.injEq, true_and]
      congr 1
      funext k
      have : i + 1 + k = i + (k + 1) := by omega
      rw [this]

theorem count_cells (n j i : Nat) :
    ((List.range n).flatMap (fun k => [(0, k), (1, k)])).count (j, i) =
      if j < 2 ∧ i < n then 1 else 0 := by
  induction n with
  | zero => simp
  | succ n ih =>
    rw [List.range_succ, List.flatMap_append, List.count_append, ih]
    simp only [List.flatMap_cons, List.flatMap_nil, List.append_nil, List.count_cons,
      List.count_nil, beq_iff_eq, Prod.mk.injEq]
    split_ifs <;> omega

/-- Reading a file that starts with `N` lines of at least two fields each, the
field after them being read without error where there is one: no failure
occurs, the columns hold the conversions of the first and second fields in
line order, and the cells are written row by row. -/
theorem read_file_valid (NDEBUG : Bool) (fs : List Char → Option (List Char))
    (file : List Char) (lines : List (List Char)) (tail : Option (List Char))
    (hl : ∀ l ∈ lines, (∀ c ∈ l, (c != '\n') = true) ∧ (lineFields l).isSome = true)
    (hfs : fs (c_str file) = some (fileOf lines tail)) :
    ((DataReader.new lines.length).read_file NDEBUG fs file).2 = none ∧
      read_csv NDEBUG fs file lines.length =
        Except.ok [SEXP.INTSXP (lines.map lineInt), SEXP.REALSXP (lines.map lineDouble)] ∧
      (DataReader.new lines.length).read_file_writes NDEBUG fs file =
        (List.range lines.length).flatMap (fun i => [(0, i), (1, i)]) := by
  obtain ⟨⟨t, h⟩, hw⟩ := DataReader_readLoop_valid NDEBUG tail lines hl 0
    { buf := fileOf lines tail, eofbit := false, failbit := false } []
    (DataReader.new lines.length) (List.replicate lines.length 0)
    (List.replicate lines.length Double.zero) (fun _ => rfl) rfl rfl (by simp) (by simp)
  have hn : (DataReader.new lines.length).n = lines.length := rfl
  refine ⟨?_, ?_, ?_⟩
  · simp only [DataReader.read_file, ifstream.open, hfs, hn, h]
  · simp only [read_csv, DataReader.read_file, ifstream.open, hfs, hn, h]
    simp [DataReader.get, DataReader.getLoop, DataReader.new, VectorInput.get]
  · simp only [DataReader.read_file_writes, ifstream.open, hfs, hn, hw]
    simp

/-- C15, as stated, fails: the one-line file `1,2.5,\q` has a line of at least two
fields, `1` and `2.5`, but `read_file` with `N = 1` is ended by the exception
for the escape sequence in the third field after writing column 0 only: the
cell of column 1 is never written. -/
theorem read_file_writes_third_field_escape :
    firstFields 2 false ['1', ',', '2', '.', '5', ',', escapeChar, 'q'] =
        Except.ok [['1'], ['2', '.', '5']] ∧
      ((DataReader.new 1).read_file true
          (oneFile ['1', ',', '2', '.', '5', ',', escapeChar, 'q']) ['f']).2 =
        some (Failure.escaped_list_error "unknown escape sequence") ∧
      (DataReader.new 1).read_file_writes true
          (oneFile ['1', ',', '2', '.', '5', ',', escapeChar, 'q']) ['f'] = [(0, 0)] ∧
      (DataReader.new 1).read_file_writes false
          (oneFile ['1', ',', '2', '.', '5', ',', escapeChar, 'q']) ['f'] = [(0, 0)] := by
  decide

/-- C15, amended: during `read_file` on a file that starts with `N` lines of at
least two fields each, whose third field, where there is one, holds no
malformed escape sequence, no failure occurs and the cells are written row by
row in increasing order, column 0 then column 1: every cell `(j, i)` with
`j < 2` and `i < N` exactly once, and no other cell. -/
theorem read_file_writes_once (NDEBUG : Bool) (fs : List Char → Option (List Char))
    (file : List Char) (lines : List (List Char)) (tail : Option (List Char))
    (hl : ∀ l ∈ lines, (∀ c ∈ l, (c != '\n') = true) ∧ (lineFields l).isSome = true)
    (hfs : fs (c_str file) = some (fileOf lines tail)) :
    ((DataReader.new lines.length).read_file NDEBUG fs file).2 = none ∧
      (DataReader.new lines.length).read_file_writes NDEBUG fs file =
        (List.range lines.length).flatMap (fun i => [(0, i), (1, i)]) ∧
      ∀ j i, ((DataReader.new lines.length).read_file_writes NDEBUG fs file).count (j, i) =
        if j < 2 ∧ i < lines.length then 1 else 0 := by
  obtain ⟨h1, _, h3⟩ := read_file_valid NDEBUG fs file lines tail hl hfs
  refine ⟨h1, h3, fun j i => ?_⟩
  rw [h3]
  exact count_cells _ j i

/-- The amended C15 at the two-line file `1,1.5` / `2,2.5,x` with `N = 2`: the cells
written are (0,0), (1,0), (0,1), (1,1). -/
theorem read_file_writes_once_witness :
    (∀ l ∈ ["1,1.5".toList, "2,2.5,x".toList],
        (∀ c ∈ l, (c != '\n') = true) ∧ (lineFields l).isSome = true) ∧
      fileOf ["1,1.5".toList, "2,2.5,x".toList] none = "1,1.5\n2,2.5,x".toList ∧
      ((DataReader.new 2).read_file false (oneFile "1,1.5\n2,2.5,x".toList) ['f']).2 = none ∧
      (DataReader.new 2).read_file_writes false (oneFile "1,1.5\n2,2.5,x".toList) ['f'] =
        [(0, 0), (1, 0), (0, 1), (1, 1)] :=
  ⟨by decide, by decide,
    (read_file_writes_once false (oneFile "1,1.5\n2,2.5,x".toList) ['f']
      ["1,1.5".toList, "2,2.5,x".toList] none (by decide) (by decide)).1,
    (read_file_writes_once false (oneFile "1,1.5\n2,2.5,x".toList) ['f']
      ["1,1.5".toList, "2,2.5,x".toList] none (by decide) (by decide)).2.1⟩

/-- The statement of C17 at `N = 2` and the files `1,1.5` / `2,2.5` and
`1,1.5` / `2,2.5` / `9,9.5`. -/
theorem read_file_first_lines_witness :
    (∀ l ∈ ["1,1.5".toList, "2,2.5".toList], ∀ c ∈ l, (c != '\n') = true) ∧
      fileOf ["1,1.5".toList, "2,2.5".toList] none = "1,1.5\n2,2.5".toList ∧
      fileOf ["1,1.5".toList, "2,2.5".toList] (some "9,9.5".toList) =
        "1,1.5\n2,2.5\n9,9.5".toList ∧
      read_csv true (oneFile "1,1.5\n2,2.5".toList) ['f'] 2 =
        read_csv true (oneFile "1,1.5\n2,2.5\n9,9.5".toList) ['f'] 2 :=
  ⟨by decide, by decide, by decide,
    (read_file_first_lines true (oneFile "1,1.5\n2,2.5".toList)
      (oneFile "1,1.5\n2,2.5\n9,9.5".toList) ['f'] ['f'] ["1,1.5".toList, "2,2.5".toList]
      none (some "9,9.5".toList) (by decide) (by decide) (by decide)).2.2⟩

/-! ## Malformed numeric fields -/

theorem FromString_int_get_of_nonNumeric (t : List Char) (h : NonNumeric t) :
    FromString_int.get t = 0 := by
  unfold NonNumeric subject at h
  unfold FromString_int.get atoi strtol
  generalize takeSign (List.dropWhile isspace (c_str t)) = body at h
  obtain ⟨neg, u⟩ := body
  simp only at h ⊢
  have hu : u.takeWhile isdigit = [] := by
    cases u with
    | nil => rfl
    | cons a v => simp [h a (by simp)]
  rw [hu]
  cases neg <;> simp [decValue, LONG_MAX, LONG_MIN, toInt32]

theorem list_map_set {α β : Type} (f : α → β) (l : List α) (i : Nat) (a : α) :
    (l.set i a).map f = (l.map f).set i (f a) := by
  induction l generalizing i with
  | nil => rfl
  | cons b t ih =>
    cases i with
    | zero => rfl
    | succ j => simp [ih]

/-- C16, as stated, fails: the one-line file `7,0.5,a\b` has a line of at least
two fields, `7` and `0.5`, and `read_csv` with `N = 1` fails with the
exception for the escape sequence in the third field. -/
theorem read_csv_third_field_escape :
    firstFields 2 false ['7', ',', '0', '.', '5', ',', 'a', escapeChar, 'b'] =
        Except.ok [['7'], ['0', '.', '5']] ∧
      read_csv true (oneFile ['7', ',', '0', '.', '5', ',', 'a', escapeChar, 'b']) ['f'] 1 =
        Except.error (Failure.escaped_list_error "unknown escape sequence") ∧
      read_csv false (oneFile ['7', ',', '0', '.', '5', ',', 'a', escapeChar, 'b']) ['f'] 1 =
        Except.error (Failure.escaped_list_error "unknown escape sequence") := by
  decide

/-- C16, amended: for every file that starts with `N` lines of at least two fields
each, whose third field, where there is one, holds no malformed escape
sequence, `read_csv` does not fail; and when line `i` is replaced by a line
whose first field is a non-numeric token and whose second field is the same
as before, the table changes only at column 0, row `i`, which becomes 0. -/
theorem read_csv_nonnumeric_local (NDEBUG : Bool) (fs fs1 : List Char → Option (List Char))
    (file : List Char) (lines : List (List Char)) (tail : Option (List Char))
    (i : Nat) (line0 line1 t f0 f1 : List Char)
    (hl : ∀ l ∈ lines, (∀ c ∈ l, (c != '\n') = true) ∧ (lineFields l).isSome = true)
    (h0 : lines[i]? = some line0) (hline0 : lineFields line0 = some (f0, f1))
    (hnl1 : ∀ c ∈ line1, (c != '\n') = true) (hline1 : lineFields line1 = some (t, f1))
    (ht : NonNumeric t)
    (hfs : fs (c_str file) = some (fileOf lines tail))
    (hfs1 : fs1 (c_str file) = some (fileOf (lines.set i line1) tail)) :
    ∃ xs ys, read_csv NDEBUG fs file lines.length =
        Except.ok [SEXP.INTSXP xs, SEXP.REALSXP ys] ∧
      read_csv NDEBUG fs1 file lines.length =
        Except.ok [SEXP.INTSXP (xs.set i 0), SEXP.REALSXP ys] := by
  refine ⟨lines.map lineInt, lines.map lineDouble,
    (read_file_valid NDEBUG fs file lines tail hl hfs).2.1, ?_⟩
  have hl1 : ∀ l ∈ lines.set i line1,
      (∀ c ∈ l, (c != '\n') = true) ∧ (lineFields l).isSome = true := by
    intro l hmem
    rcases List.mem_or_eq_of_mem_set hmem with h | h
    · exact hl l h
    · subst h
      exact ⟨hnl1, by simp [hline1]⟩
  have h := (read_file_valid NDEBUG fs1 file (lines.set i line1) tail hl1 hfs1).2.1
  rw [List.length_set] at h
  rw [h, list_map_set, list_map_set]
  have e0 : lineInt line1 = 0 := by
    simp only [lineInt, hline1, Option.getD_some]
    exact FromString_int_get_of_nonNumeric t ht
  have e1 : lineDouble line1 = lineDouble line0 := by
    simp [lineDouble, hline1, hline0]
  have e2 : (lines.map lineDouble)[i]? = some (lineDouble line0) := by
    simp [h0]
  rw [e0, e1, list_set_getElem?_self _ _ _ e2]

/-- The amended C16 at the file `1,1.5` / `2,2.5` / `3,3.5`, whose line 1 is replaced
by `abc,2.5`: column 0 becomes 1, 0, 3 and column 1 stays 1.5, 2.5, 3.5. -/
theorem read_csv_nonnumeric_local_witness :
    (∀ l ∈ ["1,1.5".toList, "2,2.5".toList, "3,3.5".toList],
        (∀ c ∈ l, (c != '\n') = true) ∧ (lineFields l).isSome = true) ∧
      lineFields "2,2.5".toList = some (['2'], "2.5".toList) ∧
      lineFields "abc,2.5".toList = some ("abc".toList, "2.5".toList) ∧
      NonNumeric "abc".toList ∧
      read_csv true (oneFile "1,1.5\n2,2.5\n3,3.5\n".toList) ['f'] 3 =
        Except.ok [SEXP.INTSXP [1, 2, 3],
          SEXP.REALSXP [Double.finite false 1023 (2 ^ 51), Double.finite false 1024 (2 ^ 50),
            Double.finite false 1024 (2 ^ 51 + 2 ^ 50)]] ∧
      read_csv true (oneFile "1,1.5\nabc,2.5\n3,3.5\n".toList) ['f'] 3 =
        Except.ok [SEXP.INTSXP [1, 0, 3],
          SEXP.REALSXP [Double.finite false 1023 (2 ^ 51), Double.finite false 1024 (2 ^ 50),
            Double.finite false 1024 (2 ^ 51 + 2 ^ 50)]] ∧
      ∃ xs ys, read_csv true (oneFile "1,1.5\n2,2.5\n3,3.5\n".toList) ['f']
          ["1,1.5".toList, "2,2.5".toList, "3,3.5".toList].length =
          Except.ok [SEXP.INTSXP xs, SEXP.REALSXP ys] ∧
        read_csv true (oneFile "1,1.5\nabc,2.5\n3,3.5\n".toList) ['f']
          ["1,1.5".toList, "2,2.5".toList, "3,3.5".toList].length =
          Except.ok [SEXP.INTSXP (xs.set 1 0), SEXP.REALSXP ys] :=
  ⟨by decide, by decide, by decide, by decide, by decide, by decide,
    read_csv_nonnumeric_local true (oneFile "1,1.5\n2,2.5\n3,3.5\n".toList)
      (oneFile "1,1.5\nabc,2.5\n3,3.5\n".toList) ['f']
      ["1,1.5".toList, "2,2.5".toList, "3,3.5".toList] (some []) 1 "2,2.5".toList
      "abc,2.5".toList "abc".toList ['2'] "2.5".toList (by decide) (by decide) (by decide)
      (by decide) (by decide) (by decide) (by decide) (by decide)⟩

/-! ## Fields after the second -/

theorem Tokenizer_get_token_congr (NDEBUG : Bool) (t u : Tokenizer) (h : t.it = u.it) :
    (t.get_token NDEBUG).2 = (u.get_token NDEBUG).2 ∧
      (t.get_token NDEBUG).1.it = (u.get_token NDEBUG).1.it := by
  unfold Tokenizer.get_token
  rw [h]
  rcases hi : token_iterator.increment NDEBUG u.it with ⟨it1, e⟩
  cases e with
  | some e => simp
  | none =>
    simp only
    cases hd : token_iterator.dereference NDEBUG u.it with
    | error e => simp
    | ok tok => simp

theorem DataReader_setCell_congr (r s : DataReader) (j i : Nat) (chunk : List Char)
    (hd : r.data = s.data) (ht : r.tokenizer.it = s.tokenizer.it) :
    (r.setCell j i chunk).data = (s.setCell j i chunk).data ∧
      (r.setCell j i chunk).tokenizer.it = (s.setCell j i chunk).tokenizer.it := by
  unfold DataReader.setCell
  rw [hd]
  cases s.data[j]? with
  | none => exact ⟨hd, ht⟩
  | some v => exact ⟨rfl, ht⟩

/-- The loop of `DataReader::set` writes the same columns and ends the same way
from two readers that hold the same columns and the same iterator. -/
theorem DataReader_setLoop_congr (NDEBUG : Bool) (i k j : Nat) (r s : DataReader)
    (hd : r.data = s.data) (ht : r.tokenizer.it = s.tokenizer.it) :
    (DataReader.setLoop NDEBUG i k j r).1.data = (DataReader.setLoop NDEBUG i k j s).1.data ∧
      (DataReader.setLoop NDEBUG i k j r).2 = (DataReader.setLoop NDEBUG i k j s).2 := by
  induction k generalizing j r s with
  | zero => exact ⟨hd, rfl⟩
  | succ k ih =>
    obtain ⟨h1, h2⟩ := Tokenizer_get_token_congr NDEBUG r.tokenizer s.tokenizer ht
    simp only [DataReader.setLoop]
    rcases hr : r.tokenizer.get_token NDEBUG with ⟨t1, res1⟩
    rcases hs : s.tokenizer.get_token NDEBUG with ⟨t2, res2⟩
    rw [hr, hs] at h1 h2
    simp only at h1 h2
    subst h1
    cases res1 with
    | error e => exact ⟨hd, rfl⟩
    | ok chunk =>
      simp only
      obtain ⟨c1, c2⟩ := DataReader_setCell_congr { r with tokenizer := t1 }
        { s with tokenizer := t2 } j i chunk hd h2
      exact ih (j + 1) _ _ c1 c2

/-- The columns `DataReader::set` leaves and the way it ends depend on the
columns and the line only, not on what the tokenizer held before. -/
theorem DataReader_set_congr (NDEBUG : Bool) (r s : DataReader) (i : Nat) (line : List Char)
    (hd : r.data = s.data) (hc : r.ncol = s.ncol) :
    (r.set NDEBUG i line).1.data = (s.set NDEBUG i line).1.data ∧
      (r.set NDEBUG i line).2 = (s.set NDEBUG i line).2 := by
  unfold DataReader.set Tokenizer.assign
  cases token_iterator.begin line with
  | error e => exact ⟨hd, rfl⟩
  | ok it =>
    simp only
    rw [hc]
    exact DataReader_setLoop_congr NDEBUG i s.ncol 0 _ _ hd rfl

/-- C18, as stated, fails: the lines `1,2.5,x` and `1,2.5,\q` both have at least
two fields and agree on fields 0 and 1, yet `set` leaves 2.5 in the Double
column for the first and, for the second, is ended by the exception for the
escape sequence in the third field before the Double column is written. -/
theorem set_third_field_escape :
    firstFields 2 false ['1', ',', '2', '.', '5', ',', 'x'] =
        Except.ok [['1'], ['2', '.', '5']] ∧
      firstFields 2 false ['1', ',', '2', '.', '5', ',', escapeChar, 'q'] =
        Except.ok [['1'], ['2', '.', '5']] ∧
      ((DataReader.new 1).set true 0 ['1', ',', '2', '.', '5', ',', 'x']).2 = none ∧
      ((DataReader.new 1).set true 0 ['1', ',', '2', '.', '5', ',', 'x']).1.data =
        [VectorInput.IntegerVector [1],
          VectorInput.DoubleVector [Double.finite false 1024 (2 ^ 50)]] ∧
      ((DataReader.new 1).set true 0 ['1', ',', '2', '.', '5', ',', escapeChar, 'q']).2 =
        some (Failure.escaped_list_error "unknown escape sequence") ∧
      ((DataReader.new 1).set true 0 ['1', ',', '2', '.', '5', ',', escapeChar, 'q']).1.data =
        [VectorInput.IntegerVector [1], VectorInput.DoubleVector [Double.zero]] := by
  decide

/-- C18, amended: for every reader with its two columns of length `n`, every row
index `i < n` and every two lines that have the same field 0 and the same
field 1 and whose third field, where there is one, holds no malformed escape
sequence, `set(i, line)` does not fail and leaves the same columns for both
lines; and a following `set` on any line leaves the same columns and ends the
same way after either. -/
theorem set_first_two_fields (NDEBUG : Bool) (r : DataReader) (n i : Nat)
    (lineA lineB f0 f1 : List Char) (hr : r.Shape n) (_hi : i < n)
    (hA : lineFields lineA = some (f0, f1)) (hB : lineFields lineB = some (f0, f1)) :
    (r.set NDEBUG i lineA).2 = none ∧ (r.set NDEBUG i lineB).2 = none ∧
      (r.set NDEBUG i lineA).1.data = (r.set NDEBUG i lineB).1.data ∧
      ∀ next : List Char,
        ((r.set NDEBUG i lineA).1.set NDEBUG (i + 1) next).1.data =
            ((r.set NDEBUG i lineB).1.set NDEBUG (i + 1) next).1.data ∧
          ((r.set NDEBUG i lineA).1.set NDEBUG (i + 1) next).2 =
            ((r.set NDEBUG i lineB).1.set NDEBUG (i + 1) next).2 := by
  obtain ⟨hc, xs, ys, hd, _, _⟩ := hr
  obtain ⟨⟨tA, hsA⟩, _⟩ := DataReader_set_lineFields NDEBUG r i lineA f0 f1 xs ys hA hc hd
  obtain ⟨⟨tB, hsB⟩, _⟩ := DataReader_set_lineFields NDEBUG r i lineB f0 f1 xs ys hB hc hd
  rw [hsA, hsB]
  exact ⟨rfl, rfl, rfl, fun next => DataReader_set_congr NDEBUG _ _ (i + 1) next rfl rfl⟩

/-- The amended C18 at the lines `1,2.5` and `1,2.5,x,y` and row 0 of a fresh reader
of two rows. -/
theorem set_first_two_fields_witness :
    (DataReader.new 2).Shape 2 ∧
      lineFields "1,2.5".toList = some (['1'], "2.5".toList) ∧
      lineFields "1,2.5,x,y".toList = some (['1'], "2.5".toList) ∧
      ((DataReader.new 2).set false 0 "1,2.5".toList).1.data =
        ((DataReader.new 2).set false 0 "1,2.5,x,y".toList).1.data :=
  ⟨DataReader_new_shape 2, by decide, by decide,
    (set_first_two_fields false (DataReader.new 2) 2 0 "1,2.5".toList "1,2.5,x,y".toList ['1']
      "2.5".toList (DataReader_new_shape 2) (by decide) (by decide) (by decide)).2.2.1⟩


end fastread
